import Mathlib

/-!
ZRAW line block reader

A shallow embedding of `ZRawImageLineBlockReader` (src/ZRawImageLineBlockReader.hpp)
and a verification of its specification.

Conventions of the embedding.

* C++ `int` values are integers (`Int`); signed arithmetic is the mathematical one
  (signed overflow is undefined behaviour in the source and is not modelled).
* `uint32_t`, `uint64_t` and `uint16_t` values are naturals; every place where the
  source converts or wraps an unsigned value carries an explicit `toUInt32`,
  `toInt32`, `toUInt16` or `% 2 ^ 32`.
* The counters `_read_values_count`, `_current_block_index` and
  `_current_line_index` start at `0` and are only incremented or reset to `0`;
  they are naturals.
* The object state is an explicit record `State` that every member function
  receives and returns.
* `BitReader`, `ZRawImageBlockLine`, the constant `ZRAW_LINE_BLOCK_SIZE` and the
  post-processing functions of `Tools.hpp` are declared outside the sources at
  hand. The first two are modelled from the specification, the constant is the
  parameter `B` of the block loops, and the post-processing functions are the
  fields of `Tools`.
-/

namespace ZRaw

/-! ## Machine integer conversions -/

/-- Conversion of an integer value to `uint32_t` (reduction modulo `2 ^ 32`). -/
def toUInt32 (x : Int) : Nat := (x % 4294967296).toNat

/-- Conversion of an integer value to a 32-bit `int` (two's complement): the value is
reduced modulo `2 ^ 32` and the upper half of the range stands for the negative
numbers. -/
def toInt32 (x : Int) : Int :=
  if toUInt32 x < 2147483648 then (toUInt32 x : Int) else (toUInt32 x : Int) - 4294967296

/-- Conversion of an integer value to `uint16_t` (reduction modulo `2 ^ 16`). -/
def toUInt16 (x : Int) : Nat := (x % 65536).toNat

/-! ## External collaborators -/

/-- Value of the `n` bits of `bits` that start at position `pos`, the first bit
being the least significant one. -/
def takeBits (bits : Nat → Bool) (pos : Nat) : Nat → Nat
  | 0 => 0
  | n + 1 => (if bits pos then 1 else 0) + 2 * takeBits bits (pos + 1) n

/-- Modelled from the spec: the bit source `BitReader` (BitReader.hpp is not part of
the sources). It is an unbounded stream of bits with a read position; values are
assembled least significant bit first, the convention the prefix decoder relies
on. Reading past the end of a finite buffer is outside the model. -/
structure BitReader where
  bits : Nat → Bool
  pos : Nat

/-- Modelled from the spec: `read(n) -> u32`, consume and return the next `n` bits
as an unsigned integer. -/
def BitReader.ReadBits (r : BitReader) (n : Nat) : Nat × BitReader :=
  (takeBits r.bits r.pos n % 4294967296, { r with pos := r.pos + n })

/-- Modelled from the spec: `peek(n) -> u64`, return bits without consuming. -/
def BitReader.ShowBits (r : BitReader) (n : Nat) : Nat :=
  takeBits r.bits r.pos n

/-- Modelled from the spec: `consume(n)`, advance by `n` bits. -/
def BitReader.FlushBits (r : BitReader) (n : Nat) : BitReader :=
  { r with pos := r.pos + n }

/-- Modelled from the spec: `align_to(boundary)`, skip bits until the position is a
multiple of `boundary` bits. -/
def BitReader.BitAlignTo (r : BitReader) (boundary : Nat) : BitReader :=
  { r with pos := (r.pos + boundary - 1) / boundary * boundary }

/-- Modelled from the spec: `ZRawImageBlockLine` (ZRawImageBlockLine.hpp is not part
of the sources), a buffer `[block][i]` of `uint16_t` samples with a per-block
header-value side channel. -/
structure ZRawImageBlockLine where
  samples : Nat → Nat → Nat
  HeaderValues : Nat → Nat

/-- Modelled from the spec: the constructor
`ZRawImageBlockLine(blocks_count, max_values_count, default_pix_value)` fills the
buffer with the default sample value. -/
def ZRawImageBlockLine.init (default_pix_value : Nat) : ZRawImageBlockLine :=
  { samples := fun _ _ => default_pix_value, HeaderValues := fun _ => 0 }

/-- The assignment `line[block][i] = value`; the stored sample is a `uint16_t`. -/
def ZRawImageBlockLine.setSample (l : ZRawImageBlockLine) (block i : Nat) (value : Int) :
    ZRawImageBlockLine :=
  { l with samples := fun b j => if b = block ∧ j = i then toUInt16 value else l.samples b j }

/-- The assignment `line.HeaderValues()[block] = value`. -/
def ZRawImageBlockLine.setHeaderValue (l : ZRawImageBlockLine) (block value : Nat) :
    ZRawImageBlockLine :=
  { l with HeaderValues := fun b => if b = block then value else l.HeaderValues b }

/-- The record `ZRawImageLineBlockReader::Parameters`. -/
structure Parameters where
  default_pix_value : Nat
  max_allowed_pixel_value : Int
  max_allowed_raw_value : Int
  max_values_count : Int
  blocks_count : Int
  stride : Bool
  align_mode : Int
  lossless : Bool
  bitdepth_real : Int
  bayer_pattern : Nat
  noise_level_1 : Int
  noise_level_2 : Int
  noise_level_distance : Nat

/-- An `int[3]` window of a decoding context; `v0` is element `[0]`. -/
structure Window where
  v0 : Int
  v1 : Int
  v2 : Int

/-- The record `__decoding_context`. -/
structure DecodingContext where
  g : Int
  last_new_read_values : Window
  last_old_read_values : Window

/-- The record `__block_parameters`, all fields `uint32_t`. The field `e` is computed
in floating point and never read by the decoder; it is left out. -/
structure BlockParameters where
  a : Nat
  b : Nat
  c : Nat
  d : Nat
  f : Nat

/-- The mutable members of `ZRawImageLineBlockReader`, with the bit reader it points to. -/
structure State where
  reader : BitReader
  line_a : ZRawImageBlockLine
  line_bc : ZRawImageBlockLine
  line_a_prev : ZRawImageBlockLine
  line_b_prev : ZRawImageBlockLine
  line_c_prev : ZRawImageBlockLine
  read_values_count : Nat
  current_block_index : Nat
  current_line_index : Nat
  decoding_mode : Nat
  bitdepth_diff : Int
  noise_level : Nat
  noise_less_than_distance_count : Nat
  noise_levels : Nat → Nat
  context_a : DecodingContext
  context_b : DecodingContext
  parameters_raw_mode : BlockParameters
  parameters_vl_mode : BlockParameters

/-- The value `0x100000001` that `_decoding_mode` holds for a raw block. -/
def RAW_MODE : Nat := 4294967297

/-! ## Stateless helpers -/

/-- The function `_roundValue`. -/
def roundValue (left value right : Int) : Int :=
  let value := if value > right then right else value
  if value < left then left else value

/-- The scanning loop of `_getValueBitSizeMinus1_ButMax6`, with `fuel = 6 - i`. -/
def bitSizeScan (value : Int) : Nat → Nat → Nat
  | 0, i => i
  | fuel + 1, i => if value >>> (i + 1) = 0 then i else bitSizeScan value fuel (i + 1)

/-- The function `_getValueBitSizeMinus1_ButMax6`. -/
def getValueBitSizeMinus1_ButMax6 (value : Int) : Nat :=
  bitSizeScan value 6 0

/-- The scanning loop of `_readHuffmanValue`, with `fuel = 9 - i`; it returns the
final `i` and the shifted `data_in`. -/
def huffmanScan : Nat → Nat → Nat → Nat × Nat
  | 0, i, data_in => (i, data_in)
  | fuel + 1, i, data_in =>
    if data_in &&& 1 ≠ 0 then (i, data_in) else huffmanScan fuel (i + 1) (data_in >>> 1)

/-- The function `_readHuffmanValue`; the result is the pair of the returned class and
of `size_in_bits_out`. -/
def readHuffmanValue (data_in : Nat) : Nat × Nat :=
  match huffmanScan 9 0 data_in with
  | (0, _) => (0, 1)
  | (1, _) => (1, 2)
  | (2, _) => (2, 3)
  | (3, _) => (3, 4)
  | (4, _) => (4, 5)
  | (5, d) => (if d &&& 3 = 1 then 5 else 6, 7)
  | (6, d) => (if d &&& 3 = 1 then 7 else 8, 8)
  | (7, d) => (if d &&& 3 = 1 then 11 else 12, 9)
  | (8, _) => (10, 9)
  | _ => (9, 9)

/-- The function `_fixPrediction`. -/
def fixPrediction (p1 p2 value : Int) : Int :=
  let a := if p1 ≤ p2 then p1 else p2
  let b := if p1 ≤ p2 then p2 else p1
  if b ≤ value then a
  else if a < value then a + b - value
  else b

/-- The function `_unmodValue`. -/
def unmodValue (value step safe_offset range step_count : Int) : Int :=
  let result := value
  let result := if value < -range then value + step_count * step else result
  let result := if range + safe_offset < value then value - step_count * step else result
  result

/-! ## The decoder -/

/-- The function `_reinitializeContexts`. -/
def reinitializeContexts (p : Parameters) (s : State) : State :=
  let w : Window :=
    { v0 := p.default_pix_value, v1 := p.default_pix_value, v2 := p.default_pix_value }
  { s with
    context_a := { g := 4, last_new_read_values := w, last_old_read_values := w }
    context_b := { g := 4, last_new_read_values := w, last_old_read_values := w } }

/-- The constructor `ZRawImageLineBlockReader(param)` together with the reader handed to
`ReadLine`. The members the constructor leaves uninitialised (`_bitdepth_diff`,
`_decoding_mode`, the two parameter bundles) are written before they are read; they
start at `0` here. -/
def State.init (p : Parameters) (reader : BitReader) : State :=
  reinitializeContexts p
    { reader := reader
      line_a := ZRawImageBlockLine.init p.default_pix_value
      line_bc := ZRawImageBlockLine.init p.default_pix_value
      line_a_prev := ZRawImageBlockLine.init p.default_pix_value
      line_b_prev := ZRawImageBlockLine.init p.default_pix_value
      line_c_prev := ZRawImageBlockLine.init p.default_pix_value
      read_values_count := 0
      current_block_index := 0
      current_line_index := 0
      decoding_mode := 0
      bitdepth_diff := 0
      noise_level := 0
      noise_less_than_distance_count := 0
      noise_levels := fun _ => 0
      context_a := { g := 0, last_new_read_values := ⟨0, 0, 0⟩, last_old_read_values := ⟨0, 0, 0⟩ }
      context_b := { g := 0, last_new_read_values := ⟨0, 0, 0⟩, last_old_read_values := ⟨0, 0, 0⟩ }
      parameters_raw_mode := ⟨0, 0, 0, 0, 0⟩
      parameters_vl_mode := ⟨0, 0, 0, 0, 0⟩ }

/-- The function `_is_upper_field_line`. -/
def is_upper_field_line (s : State) : Bool :=
  s.current_line_index &&& 1 == 0

/-- The `switch` of `_readBlockHeader` on the two bits read after a set flag. -/
def applyHeaderCode (code : Nat) (bitdepth_diff : Int) : Int :=
  match code with
  | 0 => bitdepth_diff - 2
  | 1 => bitdepth_diff - 1
  | 2 => bitdepth_diff + 1
  | 3 => bitdepth_diff + 2
  | _ => bitdepth_diff

/-- The final statement of `_readBlockHeader`: read the block decoding mode. -/
def readDecodingMode (s : State) : State :=
  let r := s.reader.ReadBits 1
  { s with reader := r.2, decoding_mode := if r.1 ≠ 0 then RAW_MODE else 0 }

/-- The function `_readBlockHeader`; the value it returns is the new `_bitdepth_diff`
converted to `uint32_t`, see `ReadNext`. -/
def readBlockHeader (p : Parameters) (s : State) : State :=
  let s :=
    if p.lossless then { s with bitdepth_diff := 0 }
    else if s.read_values_count > 0 then
      let flag0 := s.reader.ReadBits 1
      if flag0.1 ≠ 0 then
        let code := flag0.2.ReadBits 2
        { s with reader := code.2, bitdepth_diff := applyHeaderCode code.1 s.bitdepth_diff }
      else { s with reader := flag0.2 }
    else
      let v := s.reader.ReadBits 4
      { s with reader := v.2, bitdepth_diff := v.1 }
  readDecodingMode s

/-- The parameter bundle that `_initBlockParameters` computes. The shift
`1 << _bitdepth_diff` is defined by the language for `0 ≤ _bitdepth_diff ≤ 30` only. -/
def blockParameters (p : Parameters) (bitdepth_diff : Int) : BlockParameters :=
  let max_value : Int := ((1 <<< bitdepth_diff.toNat : Nat) : Int)
  let v9 : Int := (max_value >>> (1 : Nat)) - 1
  let v9 : Int := if v9 < 0 then 0 else v9
  let a := toUInt32 bitdepth_diff
  let b := toUInt32 max_value
  let c := toUInt32 v9
  let d := ((((2 * c + toUInt32 p.max_allowed_pixel_value) % 4294967296) >>> a) + 1) % 4294967296
  let f := toUInt32 (p.bitdepth_real - a)
  { a := a, b := b, c := c, d := d, f := f }

/-- The function `_initBlockParameters`. -/
def initBlockParameters (p : Parameters) (s : State) : State :=
  let bp := blockParameters p s.bitdepth_diff
  { s with parameters_vl_mode := bp, parameters_raw_mode := bp }

/-- The function `_collectNoiseLevelStatistics`; the result is the new value of
`_noise_less_than_distance_count`. -/
def collectNoiseLevelStatistics (ctx : DecodingContext) (distance : Int) (count : Nat) : Nat :=
  let l1 := ctx.last_new_read_values.v0 - ctx.last_new_read_values.v1
  let l1 := if l1 < 0 then -l1 else l1
  let l2 := ctx.last_old_read_values.v1 - ctx.last_new_read_values.v0
  let l2 := if l2 < 0 then -l2 else l2
  let l12 := if l1 ≤ l2 then l1 else l2
  let l3 := ctx.last_old_read_values.v0 - ctx.last_new_read_values.v0
  let l3 := if l3 < 0 then -l3 else l3
  let l123 := if l12 ≤ l3 then l12 else l3
  if l123 < distance then count + 1 else count

/-- The width `lsb_a_size = msb_a == 12 ? default_lsb_size : a` (an `int` stored in a
`uint32_t`). -/
def lsbSize (msb : Nat) (default_lsb_size : Int) (a : Nat) : Nat :=
  toUInt32 (if msb = 12 then default_lsb_size else a)

/-- The block that reads the least significant bits of a component from the 64-bit
word `data`: the result is the pair of `lsb` (a `uint32_t`) and of the shifted `data`. -/
def readLsb (data lsb_size : Nat) : Nat × Nat :=
  if lsb_size > 0 then
    ((((data <<< (64 - lsb_size)) % 18446744073709551616) >>> (64 - lsb_size)) % 4294967296,
      data >>> lsb_size)
  else (0, data)

/-- The value `msb == 12 ? lsb + 1 : (msb << lsb_size) | lsb`, computed on `uint32_t` and
stored in an `int`. -/
def constructValue (msb lsb lsb_size : Nat) : Int :=
  toInt32 (if msb = 12 then (lsb + 1) % 4294967296
    else ((msb <<< lsb_size) % 4294967296) ||| lsb : Nat)

/-- The signed residual `sign ? -body : body` with `sign = value & 1` (the parity of
`value`) and `body = (value + 1) >> 1`. -/
def complementValue (value : Int) : Int :=
  let sign : Bool := value % 2 ≠ 0
  let body := (value + 1) >>> (1 : Nat)
  if sign then -body else body

/-- The reconstruction of a pixel: `_unmodValue` applied to
`b * complement + predicted_offset` (a `uint32_t` expression passed as `int`), then
`_roundValue`. -/
def pixelValue (p : Parameters) (bp : BlockParameters) (complement predicted_offset : Int) : Int :=
  let pixel_value := unmodValue (toInt32 (toUInt32 (bp.b * complement + predicted_offset)))
    (toInt32 bp.d) p.max_allowed_pixel_value (toInt32 bp.c) (toInt32 bp.b)
  roundValue 0 pixel_value p.max_allowed_pixel_value

/-- The update of the adaptive estimate `g` from the constructed `value`; `a` is the
capped bit size of the old `g`. The division of `int` truncates. -/
def nextG (p : Parameters) (value : Int) (a : Nat) (g : Int) : Int :=
  let value := if value >>> a > 11 then value - 1 else value
  let value := roundValue 0 value p.max_allowed_raw_value
  (2 * value + 2 * g + 2).tdiv 4

/-- The bit parsing of `_processComponentPair`, up to `FlushBits`: from the peeked
word and the two capped bit sizes to
`(msb_a, size_a, msb_b, size_b, lsb_a_size, lsb_a, lsb_b_size, lsb_b)`. -/
def parsePair (default_lsb_size : Int) (a b data : Nat) :
    Nat × Nat × Nat × Nat × Nat × Nat × Nat × Nat :=
  let ha := readHuffmanValue (data % 4294967296)
  let data := data >>> ha.2
  let hb := readHuffmanValue (data % 4294967296)
  let data := data >>> hb.2
  let lsb_a_size := lsbSize ha.1 default_lsb_size a
  let la := readLsb data lsb_a_size
  let data := la.2
  let lsb_b_size := lsbSize hb.1 default_lsb_size b
  let lb := readLsb data lsb_b_size
  (ha.1, ha.2, hb.1, hb.2, lsb_a_size, la.1, lsb_b_size, lb.1)

/-- The function `_processComponentPair`. -/
def processComponentPair (p : Parameters) (s : State) : State :=
  let default_lsb_size : Int := toInt32 s.parameters_vl_mode.f
  let a := getValueBitSizeMinus1_ButMax6 s.context_a.g
  let b := getValueBitSizeMinus1_ButMax6 s.context_b.g
  let data := s.reader.ShowBits 48
  match parsePair default_lsb_size a b data with
  | (msb_a, size_a, msb_b, size_b, lsb_a_size, lsb_a, lsb_b_size, lsb_b) =>
    let reader := s.reader.FlushBits ((size_a + size_b + lsb_a_size + lsb_b_size) % 4294967296)
    let value_a := constructValue msb_a lsb_a lsb_a_size
    let value_b := constructValue msb_b lsb_b lsb_b_size
    let predicted_offset_a := fixPrediction s.context_a.last_new_read_values.v1
      s.context_a.last_old_read_values.v0 s.context_a.last_old_read_values.v1
    let predicted_offset_b := fixPrediction s.context_b.last_new_read_values.v1
      s.context_b.last_old_read_values.v0 s.context_b.last_old_read_values.v1
    let complement_a := complementValue value_a
    let complement_b := complementValue value_b
    { s with
      reader := reader
      context_a :=
        { s.context_a with
          last_new_read_values :=
            { s.context_a.last_new_read_values with
              v0 := pixelValue p s.parameters_vl_mode complement_a predicted_offset_a }
          g := nextG p value_a a s.context_a.g }
      context_b :=
        { s.context_b with
          last_new_read_values :=
            { s.context_b.last_new_read_values with
              v0 := pixelValue p s.parameters_vl_mode complement_b predicted_offset_b }
          g := nextG p value_b b s.context_b.g } }

/-- The loop `for (p = 2; p > 0; --p)` that shifts the windows of a context. -/
def shiftContext (c : DecodingContext) : DecodingContext :=
  { c with
    last_new_read_values :=
      { v0 := c.last_new_read_values.v0, v1 := c.last_new_read_values.v0,
        v2 := c.last_new_read_values.v1 }
    last_old_read_values :=
      { v0 := c.last_old_read_values.v0, v1 := c.last_old_read_values.v0,
        v2 := c.last_old_read_values.v1 } }

/-- The first two statements of a pixel iteration: load the samples of the previous
line into `last_old_read_values[0]` of both contexts. -/
def loadOldValues (p : Parameters) (isPrevLineDependant : Bool) (i : Nat) (s : State) : State :=
  let old_a : Int :=
    if isPrevLineDependant then s.line_a_prev.samples s.current_block_index i
    else p.default_pix_value
  let old_b : Int :=
    if isPrevLineDependant then
      (if is_upper_field_line s then s.line_b_prev else s.line_c_prev).samples
        s.current_block_index i
    else p.default_pix_value
  { s with
    context_a :=
      { s.context_a with last_old_read_values := { s.context_a.last_old_read_values with v0 := old_a } }
    context_b :=
      { s.context_b with last_old_read_values := { s.context_b.last_old_read_values with v0 := old_b } } }

/-- The statements that end a pixel iteration in both modes: noise statistics on
context A, shift of the windows, store of the two samples. -/
def storePixel (p : Parameters) (i : Nat) (s : State) : State :=
  let count := collectNoiseLevelStatistics s.context_a (toInt32 p.noise_level_distance)
    s.noise_less_than_distance_count
  let ca := shiftContext s.context_a
  let cb := shiftContext s.context_b
  { s with
    noise_less_than_distance_count := count
    context_a := ca
    context_b := cb
    line_a := s.line_a.setSample s.current_block_index i ca.last_new_read_values.v0
    line_bc := s.line_bc.setSample s.current_block_index i cb.last_new_read_values.v0 }

/-- The body of the loop of `_readNextBlockVariableLengthMode` for the index `i`. -/
def variableLengthPixel (p : Parameters) (isPrevLineDependant : Bool) (i : Nat) (s : State) :
    State :=
  storePixel p i (processComponentPair p (loadOldValues p isPrevLineDependant i s))

/-- The statements of a raw pixel iteration that read `val1` and `val2` and save
`val1 << a` and `val2 << a` (computed on `uint32_t`, stored in an `int`) as
`last_new_read_values[0]` of the two contexts. -/
def readRawValues (p : Parameters) (s : State) : State :=
  let n := toUInt32 (p.bitdepth_real - s.parameters_raw_mode.a)
  let val1 := s.reader.ReadBits n
  let val2 := val1.2.ReadBits n
  { s with
    reader := val2.2
    context_a :=
      { s.context_a with
        last_new_read_values :=
          { s.context_a.last_new_read_values with
            v0 := toInt32 ((val1.1 <<< s.parameters_raw_mode.a) % 4294967296 : Nat) } }
    context_b :=
      { s.context_b with
        last_new_read_values :=
          { s.context_b.last_new_read_values with
            v0 := toInt32 ((val2.1 <<< s.parameters_raw_mode.a) % 4294967296 : Nat) } } }

/-- The last statement of a raw pixel iteration,
`_context_b.last_new_read_values[0] = old`. -/
def restoreNewB (old : Int) (s : State) : State :=
  { s with
    context_b :=
      { s.context_b with last_new_read_values := { s.context_b.last_new_read_values with v0 := old } } }

/-- The body of the loop of `_readNextBlockRawMode` for the index `i`; `old` is the
value of `_context_b.last_new_read_values[0]` before the two values are saved. -/
def rawPixel (p : Parameters) (isPrevLineDependant : Bool) (i : Nat) (s : State) : State :=
  let s := loadOldValues p isPrevLineDependant i s
  let old := s.context_b.last_new_read_values.v0
  restoreNewB old (storePixel p i (readRawValues p s))

/-- The loop `for (i = 0; i < ZRAW_LINE_BLOCK_SIZE && _read_values_count <
_param.max_values_count; ++i, ++_read_values_count)` around a pixel body, started at
index `i` with `fuel = ZRAW_LINE_BLOCK_SIZE - i`. -/
def pixelLoop (p : Parameters) (body : Nat → State → State) : Nat → Nat → State → State
  | 0, _, s => s
  | fuel + 1, i, s =>
    if (s.read_values_count : Int) < p.max_values_count then
      let s := body i s
      pixelLoop p body fuel (i + 1) { s with read_values_count := s.read_values_count + 1 }
    else s

/-- The function `_readNextBlockVariableLengthMode`, for the block size `B`. -/
def readNextBlockVariableLengthMode (p : Parameters) (B : Nat) (isPrevLineDependant : Bool)
    (s : State) : State :=
  pixelLoop p (variableLengthPixel p isPrevLineDependant) B 0 s

/-- The function `_readNextBlockRawMode`, for the block size `B`. -/
def readNextBlockRawMode (p : Parameters) (B : Nat) (isPrevLineDependant : Bool)
    (s : State) : State :=
  pixelLoop p (rawPixel p isPrevLineDependant) B 0 s

/-- The function `_alignLastBlock`. -/
def alignLastBlock (p : Parameters) (s : State) : State :=
  { s with reader := s.reader.BitAlignTo (if p.align_mode = 1 then 256 else 128) }

/-- The statements of `ReadNext` that open a block: read the header, record the header
value (the `uint32_t` that `_readBlockHeader` returns) in both current lines, derive
the block parameters. -/
def blockStart (p : Parameters) (s : State) : State :=
  let s := readBlockHeader p s
  let header_value := toUInt32 s.bitdepth_diff
  let s :=
    { s with
      line_a := s.line_a.setHeaderValue s.current_block_index header_value
      line_bc := s.line_bc.setHeaderValue s.current_block_index header_value }
  initBlockParameters p s

/-- The statements of `ReadNext` from the header read to the dispatch on the decoding
mode, the pixel loop of the block being bounded by `n` iterations: for `n = B` this is
the decode of one block, for `n < B` the state in which the block loop stands after at
most `n` pixels. -/
def decodeBlockUpTo (p : Parameters) (n : Nat) (s : State) : State :=
  let s := blockStart p s
  if s.decoding_mode = RAW_MODE then
    readNextBlockRawMode p n (decide (s.current_line_index > 0)) s
  else
    readNextBlockVariableLengthMode p n (decide (s.current_line_index > 0)) s

/-- The statements of `ReadNext` that follow the guard on `_current_block_index`: decode
one block, increase the block counter and align after the last block. -/
def readBlock (p : Parameters) (B : Nat) (s : State) : State :=
  let s := decodeBlockUpTo p B s
  let s := { s with current_block_index := s.current_block_index + 1 }
  if (s.current_block_index : Int) ≥ p.blocks_count then
    if p.stride then alignLastBlock p s else s
  else s

/-- The function `ReadNext`: the returned flag and the new state. -/
def ReadNext (p : Parameters) (B : Nat) (s : State) : Bool × State :=
  if (s.current_block_index : Int) ≥ p.blocks_count then (true, s)
  else
    let s := readBlock p B s
    (decide ((s.current_block_index : Int) ≥ p.blocks_count), s)

/-- The function `ReadLine`: the loop `while (!is_last_block_read)` runs at most `fuel`
calls of `ReadNext`; the result is `none` when the fuel is used up before a call
returns `true`. -/
def ReadLine (p : Parameters) (B : Nat) : Nat → State → Option State
  | 0, _ => none
  | fuel + 1, s =>
    let r := ReadNext p B s
    if r.1 then some r.2 else ReadLine p B fuel r.2

/-- Number `i` of leading zero bits of a 9-bit input, bit 0 being examined first; `9`
when none of the nine bits is set. -/
def leadingZeroBits (x : Nat) : Nat :=
  ((List.range 9).find? (fun i => x.testBit i)).getD 9

/-- The table of section 4.1 of the specification: class and number of bits consumed,
from the number of leading zero bits. The test that splits the rows `i = 5, 6, 7` is
the parameter `disc`. -/
def prefixTable (disc : Nat → Nat → Bool) (x : Nat) : Nat × Nat :=
  let i := leadingZeroBits x
  if i ≤ 4 then (i, i + 1)
  else if i = 5 then (if disc x i then 5 else 6, 7)
  else if i = 6 then (if disc x i then 7 else 8, 8)
  else if i = 7 then (if disc x i then 11 else 12, 9)
  else if i = 8 then (10, 9)
  else (9, 9)

/-- The test of the table as the specification words it, the two bits after the first `1`
(bits `i + 1` and `i + 2`) read as a number with the earlier bit least significant:
they equal binary `01`. -/
def tailAfterFirstOneValue (x i : Nat) : Bool := (x >>> (i + 1)) % 4 == 1

/-- The test of the table as the specification words it, the two bits after the first `1`
read in stream order: bit `i + 1` is `0` and bit `i + 2` is `1`. -/
def tailAfterFirstOneStream (x i : Nat) : Bool := !x.testBit (i + 1) && x.testBit (i + 2)

/-- The test on the two bits that start at the first `1` (bits `i` and `i + 1`): they
equal binary `01`, that is, the bit after the first `1` is `0`. -/
def tailAtFirstOne (x i : Nat) : Bool := (x >>> i) % 4 == 1

/-- The delta that a 2-bit header code selects: `0 → -2`, `1 → -1`, `2 → +1`, `3 → +2`. -/
def headerDelta (code : Nat) : Int :=
  match code with
  | 0 => -2
  | 1 => -1
  | 2 => 1
  | _ => 2

/-- The reader after the bit depth fields of a block header, where the mode bit is read:
no field for a lossless decoder, 4 bits when `read_values_count = 0`, otherwise the flag
and, when the flag is set, the 2-bit code. -/
def headerFieldsReader (p : Parameters) (s : State) : BitReader :=
  if p.lossless then s.reader
  else if s.read_values_count = 0 then (s.reader.ReadBits 4).2
  else if (s.reader.ReadBits 1).1 = 1 then ((s.reader.ReadBits 1).2.ReadBits 2).2
  else (s.reader.ReadBits 1).2

/-- The members that stay constant while the pixels of one block are decoded. -/
def SameBlockFrame (s t : State) : Prop :=
  t.current_block_index = s.current_block_index ∧
  t.current_line_index = s.current_line_index ∧
  t.bitdepth_diff = s.bitdepth_diff ∧
  t.decoding_mode = s.decoding_mode ∧
  t.line_a.HeaderValues = s.line_a.HeaderValues ∧
  t.line_bc.HeaderValues = s.line_bc.HeaderValues ∧
  t.parameters_raw_mode = s.parameters_raw_mode ∧
  t.parameters_vl_mode = s.parameters_vl_mode ∧
  t.line_a_prev = s.line_a_prev ∧
  t.line_b_prev = s.line_b_prev ∧
  t.line_c_prev = s.line_c_prev

/-- The invariant on the adaptive estimates: `g` of both contexts lies in
`[0, max_allowed_raw_value]`. -/
def GBounded (p : Parameters) (s : State) : Prop :=
  (0 ≤ s.context_a.g ∧ s.context_a.g ≤ p.max_allowed_raw_value) ∧
  (0 ≤ s.context_b.g ∧ s.context_b.g ≤ p.max_allowed_raw_value)

/-- The state after one call of `ReadNext`. -/
def readNextState (p : Parameters) (B : Nat) (s : State) : State := (ReadNext p B s).2

/-! ## Example inputs -/

/-- The bit stream whose set bits are at the positions of `l`. -/
def bitsOf (l : List Nat) : Nat → Bool := fun i => decide (i ∈ l)

/-- Parameters of a line of three blocks of 16 samples, 8 bits deep, not lossless. -/
def paramsDeltaChain : Parameters :=
  { default_pix_value := 0, max_allowed_pixel_value := 255, max_allowed_raw_value := 255,
    max_values_count := 48, blocks_count := 3, stride := false, align_mode := 0, lossless := false,
    bitdepth_real := 8, bayer_pattern := 0, noise_level_1 := 0, noise_level_2 := 0,
    noise_level_distance := 1 }

/-- A line of three raw blocks with all samples zero: the first header reads the 4-bit
value 5 (bits 0 to 3), the second has flag 1 (bit 101) and code 2 (bits 102, 103), the
third has flag 1 (bit 169) and code 0; the mode bits are at 4, 104 and 172. -/
def stateDeltaChain : State :=
  State.init paramsDeltaChain ⟨bitsOf [0, 2, 4, 101, 103, 104, 169, 172], 0⟩

/-- Parameters of a line of two blocks of 16 samples, 16 bits deep, not lossless. -/
def paramsDeltaUp : Parameters :=
  { default_pix_value := 0, max_allowed_pixel_value := 65535, max_allowed_raw_value := 65535,
    max_values_count := 32, blocks_count := 2, stride := false, align_mode := 0, lossless := false,
    bitdepth_real := 16, bayer_pattern := 0, noise_level_1 := 0, noise_level_2 := 0,
    noise_level_distance := 1 }

/-- A line whose first header reads the 4-bit value 15 and selects the raw mode (bits 0
to 4), and whose second header has flag 1 and code 3 (bits 37 to 39). -/
def stateDeltaUp : State := State.init paramsDeltaUp ⟨bitsOf [0, 1, 2, 3, 4, 37, 38, 39], 0⟩

/-- A line whose first header reads the 4-bit value 0 and selects the raw mode (bit 4),
and whose second header has flag 1 (bit 261) and code 0. -/
def stateDeltaDown : State := State.init paramsDeltaChain ⟨bitsOf [4, 261], 0⟩

/-- Parameters of a lossless decoder, 12 bits deep, whose `max_allowed_pixel_value` is
1023; two blocks of 16 samples. -/
def paramsRawWide : Parameters :=
  { default_pix_value := 0, max_allowed_pixel_value := 1023, max_allowed_raw_value := 1023,
    max_values_count := 32, blocks_count := 2, stride := false, align_mode := 0, lossless := true,
    bitdepth_real := 12, bayer_pattern := 0, noise_level_1 := 0, noise_level_2 := 0,
    noise_level_distance := 1 }

/-- A line whose first block is raw (bit 0) and whose first 12-bit value is 4095 (bits 1
to 12). -/
def stateRawWide : State :=
  State.init paramsRawWide ⟨bitsOf [0, 1, 2, 3, 4, 5, 6, 7, 8, 9, 10, 11, 12], 0⟩

/-- Parameters of a lossless decoder whose `max_allowed_raw_value` is 3; one block. -/
def paramsSmallRaw : Parameters :=
  { default_pix_value := 0, max_allowed_pixel_value := 4095, max_allowed_raw_value := 3,
    max_values_count := 16, blocks_count := 1, stride := false, align_mode := 0, lossless := true,
    bitdepth_real := 12, bayer_pattern := 0, noise_level_1 := 0, noise_level_2 := 0,
    noise_level_distance := 1 }

/-- A line whose block is in variable-length mode (bit 0 clear); the first pixel has
class 0 for both components (bits 1 and 2), the two least significant bits of component
A are `11` (bits 3 and 4) and those of component B are `00`. -/
def stateSmallRaw : State := State.init paramsSmallRaw ⟨bitsOf [1, 2, 3, 4], 0⟩

/-- The median of three integers. -/
def median3 (a b c : Int) : Int := max (min a b) (min (max a b) c)

/-- Parameters with `max_allowed_pixel_value = 4`. -/
def paramsSmallMax : Parameters :=
  { default_pix_value := 0, max_allowed_pixel_value := 4, max_allowed_raw_value := 4,
    max_values_count := 16, blocks_count := 1, stride := false, align_mode := 0, lossless := false,
    bitdepth_real := 3, bayer_pattern := 0, noise_level_1 := 0, noise_level_2 := 0,
    noise_level_distance := 1 }

/-- The old-line sample of component A that the specification prescribes for the pixel
`i` of the current block: `default_pix_value` on the first line, the sample of
`line_a_prev` afterwards. -/
def oldSampleA (p : Parameters) (s : State) (i : Nat) : Int :=
  if s.current_line_index = 0 then (p.default_pix_value : Int)
  else (s.line_a_prev.samples s.current_block_index i : Int)

/-- The old-line sample of component B that the specification prescribes:
`default_pix_value` on the first line, afterwards the sample of `line_b_prev` when
`current_line_index` is even and of `line_c_prev` when it is odd. -/
def oldSampleB (p : Parameters) (s : State) (i : Nat) : Int :=
  if s.current_line_index = 0 then (p.default_pix_value : Int)
  else if s.current_line_index % 2 = 0 then (s.line_b_prev.samples s.current_block_index i : Int)
  else (s.line_c_prev.samples s.current_block_index i : Int)

/-- The number of bits of a raw field, `bitdepth_real - a`. -/
def rawFieldWidth (p : Parameters) (s : State) : Nat :=
  (p.bitdepth_real - s.parameters_raw_mode.a).toNat

/-- The first raw field of a pixel, `val1`: the next `bitdepth_real - a` bits. -/
def rawField1 (p : Parameters) (s : State) : Nat :=
  (s.reader.ReadBits (rawFieldWidth p s)).1

/-- The second raw field of a pixel, `val2`: the `bitdepth_real - a` bits after `val1`. -/
def rawField2 (p : Parameters) (s : State) : Nat :=
  ((s.reader.ReadBits (rawFieldWidth p s)).2.ReadBits (rawFieldWidth p s)).1

/-- The `switch` of `_readHuffmanValue` as a function of the number `i` of leading zero
bits and of the two bits `t = data_in & 3` that start at the first `1`. -/
def huffmanSwitch (i t : Nat) : Nat × Nat :=
  if i = 0 then (0, 1)
  else if i = 1 then (1, 2)
  else if i = 2 then (2, 3)
  else if i = 3 then (3, 4)
  else if i = 4 then (4, 5)
  else if i = 5 then (if t = 1 then 5 else 6, 7)
  else if i = 6 then (if t = 1 then 7 else 8, 8)
  else if i = 7 then (if t = 1 then 11 else 12, 9)
  else if i = 8 then (10, 9)
  else (9, 9)

/-- The fields of a pixel pair in the peeked word. -/
structure PairLayout where
  msb_a : Nat
  sa : Nat
  msb_b : Nat
  sb : Nat
  lsb_a_size : Nat
  lsb_a : Nat
  lsb_b_size : Nat
  lsb_b : Nat

/-- The width of the least significant bits of a component as the specification states
it: `f` when the class is 12, the capped bit width of `g` otherwise. -/
def specLsbSize (f : Nat) (g : Int) (msb : Nat) : Nat :=
  if msb = 12 then f else getValueBitSizeMinus1_ButMax6 g

/-- The layout of a pixel pair as the specification states it: from bit 0 of the peeked
word, the prefix of A (`sa` bits), the prefix of B (`sb` bits), the least significant bits
of A, the least significant bits of B. -/
def specLayout (f : Nat) (ga gb : Int) (data : Nat) : PairLayout :=
  let pa := readHuffmanValue data
  let pb := readHuffmanValue (data >>> pa.2)
  let wa := specLsbSize f ga pa.1
  let wb := specLsbSize f gb pb.1
  { msb_a := pa.1, sa := pa.2, msb_b := pb.1, sb := pb.2, lsb_a_size := wa,
    lsb_a := (data >>> (pa.2 + pb.2)) % 2 ^ wa, lsb_b_size := wb,
    lsb_b := (data >>> (pa.2 + pb.2 + wa)) % 2 ^ wb }

/-- The number of bits of a pixel pair, `sa + sb + lsb_a_size + lsb_b_size`. -/
def PairLayout.bits (l : PairLayout) : Nat :=
  l.sa + l.sb + l.lsb_a_size + l.lsb_b_size

/-- The constructed value as the specification states it: `lsb + 1` when the class is 12,
`(msb << lsb_size) | lsb` otherwise. -/
def specValue (msb lsb lsb_size : Nat) : Int :=
  if msb = 12 then (lsb : Int) + 1 else (((msb <<< lsb_size) ||| lsb : Nat) : Int)

/-- The value of component A constructed from the layout. -/
def PairLayout.value_a (l : PairLayout) : Int := specValue l.msb_a l.lsb_a l.lsb_a_size

/-- The value of component B constructed from the layout. -/
def PairLayout.value_b (l : PairLayout) : Int := specValue l.msb_b l.lsb_b l.lsb_b_size

/-- Parameters of a decoder 12 bits deep, not lossless; one block of 16 samples. -/
def paramsRaw12 : Parameters :=
  { default_pix_value := 0, max_allowed_pixel_value := 4095, max_allowed_raw_value := 4095,
    max_values_count := 16, blocks_count := 1, stride := false, align_mode := 0, lossless := false,
    bitdepth_real := 12, bayer_pattern := 0, noise_level_1 := 0, noise_level_2 := 0,
    noise_level_distance := 1 }

/-- The state at the first pixel of a raw block with `bitdepth_diff = 4`: the header reads
the 4-bit value 4 (bit 2) and the mode bit 1 (bit 4); the two 8-bit fields that follow are
171 (bits 5, 6, 8, 10, 12) and 205 (bits 13, 15, 16, 19, 20). -/
def stateRaw12 : State :=
  blockStart paramsRaw12
    (State.init paramsRaw12 ⟨bitsOf [2, 4, 5, 6, 8, 10, 12, 13, 15, 16, 19, 20], 0⟩)

/-- The state at the first pixel of the variable-length block of `stateSmallRaw`. -/
def stateSmallRawPixel : State := blockStart paramsSmallRaw stateSmallRaw

/-- The two values `value_a` and `value_b` that `_processComponentPair` constructs from
the bits it parses in the state `s`. -/
def pairValues (s : State) : Int × Int :=
  match parsePair (toInt32 s.parameters_vl_mode.f) (getValueBitSizeMinus1_ButMax6 s.context_a.g)
      (getValueBitSizeMinus1_ButMax6 s.context_b.g) (s.reader.ShowBits 48) with
  | (msb_a, _, msb_b, _, lsb_a_size, lsb_a, lsb_b_size, lsb_b) =>
    (constructValue msb_a lsb_a lsb_a_size, constructValue msb_b lsb_b lsb_b_size)

/-- A decoding context whose windows hold 0 at the indices 0 and 1. -/
def ZeroContext (c : DecodingContext) : Prop :=
  c.last_new_read_values.v0 = 0 ∧ c.last_new_read_values.v1 = 0 ∧
  c.last_old_read_values.v0 = 0 ∧ c.last_old_read_values.v1 = 0

/-- Scenario S1 with `BLOCK_SIZE = 16`: a lossless decoder 12 bits deep, one block. -/
def paramsZeroLine : Parameters :=
  { default_pix_value := 0, max_allowed_pixel_value := 4095, max_allowed_raw_value := 4095,
    max_values_count := 16, blocks_count := 1, stride := false, align_mode := 0, lossless := true,
    bitdepth_real := 12, bayer_pattern := 0, noise_level_1 := 0, noise_level_2 := 0,
    noise_level_distance := 1 }

/-- The bit stream of scenario S1: the mode bit 0, then 16 pairs of class 0 (a single `1`
for each component) with all-zero least significant bits. The first pair has 2 such bits
for each component (`g = 4`), the second has 1 (`g = 2`), the others have none (`g = 1`). -/
def streamZeroLine : BitReader :=
  ⟨bitsOf [1, 2, 7, 8, 11, 12, 13, 14, 15, 16, 17, 18, 19, 20, 21, 22, 23, 24, 25, 26, 27, 28,
    29, 30, 31, 32, 33, 34, 35, 36, 37, 38], 0⟩

/-- The parameters of `paramsZeroLine` with `noise_level_distance = 2^31`. -/
def paramsZeroLineWide : Parameters :=
  { paramsZeroLine with noise_level_distance := 2147483648 }

/-- Parameters of a decoder 20 bits deep, not lossless; one block of 16 samples. -/
def paramsRaw20 : Parameters :=
  { default_pix_value := 0, max_allowed_pixel_value := 1048575, max_allowed_raw_value := 1048575,
    max_values_count := 16, blocks_count := 1, stride := false, align_mode := 0, lossless := false,
    bitdepth_real := 20, bayer_pattern := 0, noise_level_1 := 0, noise_level_2 := 0,
    noise_level_distance := 1 }

/-- The state at the first pixel of a raw block with `bitdepth_diff = 0` of `paramsRaw20`:
the header reads the 4-bit value 0 and the mode bit 1 (bit 4); the first 20-bit field is
65536 (bit 21 of the stream is its bit 16) and the second is 0. -/
def stateRaw20 : State :=
  blockStart paramsRaw20 (State.init paramsRaw20 ⟨bitsOf [4, 21], 0⟩)

/-- The state at the first pixel of a raw block of `paramsRaw12` whose header reads the
4-bit value 15 (bits 0 to 3) and the mode bit 1 (bit 4): `a = 15` exceeds
`bitdepth_real = 12`. -/
def stateRaw12Wide : State :=
  blockStart paramsRaw12 (State.init paramsRaw12 ⟨bitsOf [0, 1, 2, 3, 4], 0⟩)

/-! # Theorems -/

/-- Claim C1, counterexample: on the input 32 (five leading zero bits, then a `1`, then
zeros) `_readHuffmanValue` returns class 5, while the table as the claim words it, with the
test on the two bits after the first `1` (they are `00`, not `01`), gives class 6. Both
readings of the two bits disagree with the code. -/
theorem readHuffmanValue_table_after_first_one_fails :
    readHuffmanValue 32 ≠ prefixTable tailAfterFirstOneValue 32 ∧
    readHuffmanValue 32 ≠ prefixTable tailAfterFirstOneStream 32 := by decide

set_option maxRecDepth 1000000 in
/-- Claim C1 (amended): for every one of the 512 possible 9-bit inputs, with `i` the number
of leading zero bits, `_readHuffmanValue` returns the class and size of the table, where the
rows `i = 5, 6, 7` are split by the two bits that start at the first `1` (the `1` itself and
the bit after it) being binary `01`; the size is always one of 1, 2, 3, 4, 5, 7, 8, 9. -/
theorem readHuffmanValue_table (x : Nat) (h : x < 512) :
    readHuffmanValue x = prefixTable tailAtFirstOne x ∧
    (readHuffmanValue x).2 ∈ [1, 2, 3, 4, 5, 7, 8, 9] := by
  revert x
  decide

/-- Claim C1, witness: the input 160 (`i = 5`, the bit after the first `1` is `0`). -/
theorem readHuffmanValue_table_witness :
    160 < 512 ∧ (readHuffmanValue 160 = prefixTable tailAtFirstOne 160 ∧
    (readHuffmanValue 160).2 ∈ [1, 2, 3, 4, 5, 7, 8, 9]) :=
  ⟨by decide, readHuffmanValue_table 160 (by decide)⟩

/-- Claim C7: `_fixPrediction(p1, p2, v) = _fixPrediction(p2, p1, v)` for all integers. -/
theorem fixPrediction_comm (p1 p2 value : Int) :
    fixPrediction p1 p2 value = fixPrediction p2 p1 value := by
  unfold fixPrediction
  simp only
  split_ifs <;> omega

/-- Claim C8, counterexample: with `step = 1`, `off = 0`, `range = 0`, `n = 1`, the value
`-10` goes to `-9` and `-9` goes to `-8`: applying `_unmodValue` twice differs from once. -/
theorem unmodValue_not_idempotent :
    unmodValue (unmodValue (-10) 1 0 0 1) 1 0 0 1 ≠ unmodValue (-10) 1 0 0 1 := by decide

/-- Claim C8 (amended): applying `_unmodValue` twice equals applying it once exactly when
the first result lies in the window `[-range, range + off]` or `n * step = 0`; in
particular `_unmodValue` is idempotent on every input that one application folds into the
window. -/
theorem unmodValue_twice (x step off range n : Int) :
    unmodValue (unmodValue x step off range n) step off range n = unmodValue x step off range n ↔
      (-range ≤ unmodValue x step off range n ∧ unmodValue x step off range n ≤ range + off) ∨
        n * step = 0 := by
  unfold unmodValue
  simp only
  generalize n * step = k
  split_ifs <;> constructor <;> intro h <;> omega

/-- A field of `n` bits is below `2 ^ n`. -/
theorem takeBits_lt (bits : Nat → Bool) : ∀ (n pos : Nat), takeBits bits pos n < 2 ^ n := by
  intro n
  induction n with
  | zero => intro pos; simp [takeBits]
  | succ n ih =>
    intro pos
    have h := ih (pos + 1)
    simp only [takeBits, pow_succ]
    split_ifs <;> omega

/-- The value that `ReadBits n` returns is below `2 ^ n`. -/
theorem ReadBits_lt (r : BitReader) (n : Nat) : (r.ReadBits n).1 < 2 ^ n := by
  have h := takeBits_lt r.bits n r.pos
  have h2 : takeBits r.bits r.pos n % 4294967296 ≤ takeBits r.bits r.pos n := Nat.mod_le _ _
  simp only [BitReader.ReadBits]
  omega

/-- The frame relation is reflexive. -/
theorem SameBlockFrame.refl (s : State) : SameBlockFrame s s := by
  simp [SameBlockFrame]

/-- The frame relation is transitive. -/
theorem SameBlockFrame.trans {s t u : State} (h1 : SameBlockFrame s t) (h2 : SameBlockFrame t u) :
    SameBlockFrame s u := by
  simp only [SameBlockFrame] at *
  obtain ⟨a1, a2, a3, a4, a5, a6, a7, a8, a9, a10, a11⟩ := h1
  obtain ⟨b1, b2, b3, b4, b5, b6, b7, b8, b9, b10, b11⟩ := h2
  simp [*]

/-- A pixel of the variable-length mode keeps the block frame. -/
theorem variableLengthPixel_frame (p : Parameters) (isPrev : Bool) (i : Nat) (s : State) :
    SameBlockFrame s (variableLengthPixel p isPrev i s) := by
  simp [SameBlockFrame, variableLengthPixel, storePixel, processComponentPair, loadOldValues,
    ZRawImageBlockLine.setSample]

/-- A pixel of the raw mode keeps the block frame. -/
theorem rawPixel_frame (p : Parameters) (isPrev : Bool) (i : Nat) (s : State) :
    SameBlockFrame s (rawPixel p isPrev i s) := by
  simp [SameBlockFrame, rawPixel, restoreNewB, readRawValues, storePixel, loadOldValues,
    ZRawImageBlockLine.setSample]

/-- Invariant rule of the pixel loop: a property kept by the body and by the increment of
`_read_values_count` is kept by the loop. -/
theorem pixelLoop_invariant (p : Parameters) (body : Nat → State → State) (P : State → Prop)
    (hbody : ∀ i s, P s → P (body i s))
    (hinc : ∀ s, P s → P { s with read_values_count := s.read_values_count + 1 }) :
    ∀ (n i : Nat) (s : State), P s → P (pixelLoop p body n i s) := by
  intro n
  induction n with
  | zero => intro i s h; simpa [pixelLoop] using h
  | succ n ih =>
    intro i s h
    simp only [pixelLoop]
    split_ifs
    · exact ih _ _ (hinc _ (hbody _ _ h))
    · exact h

/-- The pixel loop keeps the block frame when its body does. -/
theorem pixelLoop_frame (p : Parameters) (body : Nat → State → State)
    (hbody : ∀ i s, SameBlockFrame s (body i s)) (n i : Nat) (s : State) :
    SameBlockFrame s (pixelLoop p body n i s) := by
  apply pixelLoop_invariant p body (fun t => SameBlockFrame s t)
  · intro i t h
    exact h.trans (hbody i t)
  · intro t h
    exact h
  · exact SameBlockFrame.refl s

/-- The pixel loops of a block keep the frame set by the block start. -/
theorem decodeBlockUpTo_frame (p : Parameters) (n : Nat) (s : State) :
    SameBlockFrame (blockStart p s) (decodeBlockUpTo p n s) := by
  unfold decodeBlockUpTo
  simp only
  split_ifs
  · exact pixelLoop_frame p _ (rawPixel_frame p _) n 0 _
  · exact pixelLoop_frame p _ (variableLengthPixel_frame p _) n 0 _

/-- The header read keeps `_current_block_index`. -/
theorem readBlockHeader_current_block_index (p : Parameters) (s : State) :
    (readBlockHeader p s).current_block_index = s.current_block_index := by
  unfold readBlockHeader readDecodingMode
  simp only
  split_ifs <;> rfl

/-- The header values that the block start records are those found after the block. -/
theorem readBlock_HeaderValues (p : Parameters) (B : Nat) (s : State) :
    (readBlock p B s).line_a.HeaderValues = (blockStart p s).line_a.HeaderValues ∧
    (readBlock p B s).line_bc.HeaderValues = (blockStart p s).line_bc.HeaderValues := by
  have h := decodeBlockUpTo_frame p B s
  simp only [SameBlockFrame] at h
  unfold readBlock alignLastBlock
  simp only
  split_ifs <;> exact ⟨h.2.2.2.2.1, h.2.2.2.2.2.1⟩

/-- The value of `_bitdepth_diff` after `_readBlockHeader`, from the bits of the header. -/
theorem readBlockHeader_bitdepth_diff (p : Parameters) (s : State) :
    (readBlockHeader p s).bitdepth_diff =
      (if p.lossless then 0
       else if s.read_values_count = 0 then ((s.reader.ReadBits 4).1 : Int)
       else if (s.reader.ReadBits 1).1 = 1 then
         s.bitdepth_diff + headerDelta ((s.reader.ReadBits 1).2.ReadBits 2).1
       else s.bitdepth_diff) := by
  have hflag := ReadBits_lt s.reader 1
  have hcode := ReadBits_lt (s.reader.ReadBits 1).2 2
  unfold readBlockHeader readDecodingMode
  simp only
  by_cases hl : p.lossless = true
  · simp [hl]
  · by_cases hr : s.read_values_count = 0
    · simp [hl, hr]
    · have hr2 : s.read_values_count > 0 := Nat.pos_of_ne_zero hr
      by_cases hf : (s.reader.ReadBits 1).1 = 1
      · have hc : ((s.reader.ReadBits 1).2.ReadBits 2).1 = 0 ∨
            ((s.reader.ReadBits 1).2.ReadBits 2).1 = 1 ∨
            ((s.reader.ReadBits 1).2.ReadBits 2).1 = 2 ∨
            ((s.reader.ReadBits 1).2.ReadBits 2).1 = 3 := by omega
        rcases hc with hc | hc | hc | hc <;>
          simp [hl, hr, hr2, hf, hc, applyHeaderCode, headerDelta] <;> ring
      · have hf0 : (s.reader.ReadBits 1).1 = 0 := by omega
        simp [hl, hr, hr2, hf0]

/-- The mode bit is read after the bit depth fields; it sets `_decoding_mode`. -/
theorem readBlockHeader_mode (p : Parameters) (s : State) :
    (readBlockHeader p s).decoding_mode =
        (if ((headerFieldsReader p s).ReadBits 1).1 = 1 then RAW_MODE else 0) ∧
    (readBlockHeader p s).reader = ((headerFieldsReader p s).ReadBits 1).2 := by
  have hflag := ReadBits_lt s.reader 1
  have hm := ReadBits_lt (headerFieldsReader p s) 1
  have key : ∀ t : State, t.reader = headerFieldsReader p s →
      (readDecodingMode t).decoding_mode =
        (if ((headerFieldsReader p s).ReadBits 1).1 = 1 then RAW_MODE else 0) ∧
      (readDecodingMode t).reader = ((headerFieldsReader p s).ReadBits 1).2 := by
    intro t ht
    unfold readDecodingMode
    simp only [ht]
    refine ⟨?_, trivial⟩
    by_cases h1 : ((headerFieldsReader p s).ReadBits 1).1 = 1
    · simp [h1]
    · have h0 : ((headerFieldsReader p s).ReadBits 1).1 = 0 := by omega
      simp [h0]
  unfold readBlockHeader
  apply key
  unfold headerFieldsReader
  by_cases hl : p.lossless = true
  · simp [hl]
  · by_cases hr : s.read_values_count = 0
    · simp [hl, hr]
    · have hr2 : s.read_values_count > 0 := Nat.pos_of_ne_zero hr
      by_cases hf : (s.reader.ReadBits 1).1 = 1
      · simp [hl, hr, hr2, hf]
      · have hf0 : (s.reader.ReadBits 1).1 = 0 := by omega
        simp [hl, hr, hr2, hf0]

/-- The members set or kept by the statements that open a block. -/
theorem blockStart_fields (p : Parameters) (s : State) :
    (blockStart p s).decoding_mode = (readBlockHeader p s).decoding_mode ∧
    (blockStart p s).current_line_index = s.current_line_index ∧
    (blockStart p s).current_block_index = s.current_block_index ∧
    (blockStart p s).bitdepth_diff = (readBlockHeader p s).bitdepth_diff ∧
    (blockStart p s).read_values_count = s.read_values_count ∧
    (blockStart p s).line_a.HeaderValues s.current_block_index =
      toUInt32 (readBlockHeader p s).bitdepth_diff ∧
    (blockStart p s).line_bc.HeaderValues s.current_block_index =
      toUInt32 (readBlockHeader p s).bitdepth_diff := by
  have hc := readBlockHeader_current_block_index p s
  have hl : (readBlockHeader p s).current_line_index = s.current_line_index := by
    unfold readBlockHeader readDecodingMode
    simp only
    split_ifs <;> rfl
  have hr : (readBlockHeader p s).read_values_count = s.read_values_count := by
    unfold readBlockHeader readDecodingMode
    simp only
    split_ifs <;> rfl
  simp [blockStart, initBlockParameters, ZRawImageBlockLine.setHeaderValue, hc, hl, hr]

/-- Claim C2: for every block (`current_block_index < blocks_count`), `_readBlockHeader` sets
`bitdepth_diff` to 0 if lossless, otherwise to the next 4 bits if `read_values_count = 0`,
otherwise it reads a flag and, when the flag is 1, adds the delta selected by 2 more bits
(`0 → -2`, `1 → -1`, `2 → +1`, `3 → +2`); it then reads one mode bit, 1 selecting the raw
mode and 0 the variable-length mode; `ReadNext` records the resulting `bitdepth_diff`, as
the `uint32_t` that `_readBlockHeader` returns, in the header values of `line_a` and of
`line_bc` at `current_block_index`: the recorded number is `bitdepth_diff` itself whenever
`bitdepth_diff` is not negative. -/
theorem ReadNext_block_header (p : Parameters) (B : Nat) (s : State)
    (h : (s.current_block_index : Int) < p.blocks_count) :
    (readBlockHeader p s).bitdepth_diff =
      (if p.lossless then 0
       else if s.read_values_count = 0 then ((s.reader.ReadBits 4).1 : Int)
       else if (s.reader.ReadBits 1).1 = 1 then
         s.bitdepth_diff + headerDelta ((s.reader.ReadBits 1).2.ReadBits 2).1
       else s.bitdepth_diff) ∧
    (readBlockHeader p s).decoding_mode =
      (if ((headerFieldsReader p s).ReadBits 1).1 = 1 then RAW_MODE else 0) ∧
    (readBlockHeader p s).reader = ((headerFieldsReader p s).ReadBits 1).2 ∧
    decodeBlockUpTo p B s =
      (if ((headerFieldsReader p s).ReadBits 1).1 = 1 then
        readNextBlockRawMode p B (decide (s.current_line_index > 0)) (blockStart p s)
       else
        readNextBlockVariableLengthMode p B (decide (s.current_line_index > 0))
          (blockStart p s)) ∧
    (ReadNext p B s).2.line_a.HeaderValues s.current_block_index =
      toUInt32 (readBlockHeader p s).bitdepth_diff ∧
    (ReadNext p B s).2.line_bc.HeaderValues s.current_block_index =
      toUInt32 (readBlockHeader p s).bitdepth_diff ∧
    (0 ≤ (readBlockHeader p s).bitdepth_diff →
      (readBlockHeader p s).bitdepth_diff < 4294967296 →
      ((ReadNext p B s).2.line_a.HeaderValues s.current_block_index : Int) =
        (readBlockHeader p s).bitdepth_diff ∧
      ((ReadNext p B s).2.line_bc.HeaderValues s.current_block_index : Int) =
        (readBlockHeader p s).bitdepth_diff) := by
  have hm := readBlockHeader_mode p s
  have hb := blockStart_fields p s
  have hv := readBlock_HeaderValues p B s
  have hnext : (ReadNext p B s).2 = readBlock p B s := by
    unfold ReadNext
    have : ¬ ((s.current_block_index : Int) ≥ p.blocks_count) := by omega
    simp [this]
  have ha : (ReadNext p B s).2.line_a.HeaderValues s.current_block_index =
      toUInt32 (readBlockHeader p s).bitdepth_diff := by
    rw [hnext, hv.1]; exact hb.2.2.2.2.2.1
  have hbc : (ReadNext p B s).2.line_bc.HeaderValues s.current_block_index =
      toUInt32 (readBlockHeader p s).bitdepth_diff := by
    rw [hnext, hv.2]; exact hb.2.2.2.2.2.2
  refine ⟨readBlockHeader_bitdepth_diff p s, hm.1, hm.2, ?_, ha, hbc, ?_⟩
  · unfold decodeBlockUpTo
    simp only [hb.1, hb.2.1, hm.1]
    by_cases h1 : ((headerFieldsReader p s).ReadBits 1).1 = 1
    · simp [h1]
    · simp [h1, RAW_MODE]
  · intro h0 h32
    rw [ha, hbc]
    have : ((toUInt32 (readBlockHeader p s).bitdepth_diff : Nat) : Int) =
        (readBlockHeader p s).bitdepth_diff := by
      unfold toUInt32
      rw [Int.toNat_of_nonneg (Int.emod_nonneg _ (by norm_num))]
      exact Int.emod_eq_of_lt h0 h32
    exact ⟨this, this⟩

/-- Claim C2, witness: the first header of the example line reads the 4-bit value 5, and the
line (4-bit 5, then flag 1 code 2, then flag 1 code 0) records the header values `[5, 6, 4]`
in both lines. -/
theorem ReadNext_block_header_witness :
    ((stateDeltaChain.current_block_index : Int) < paramsDeltaChain.blocks_count) ∧
    (readBlockHeader paramsDeltaChain stateDeltaChain).bitdepth_diff = 5 ∧
    (ReadLine paramsDeltaChain 16 4 stateDeltaChain).map
      (fun s => ((List.range 3).map s.line_a.HeaderValues,
        (List.range 3).map s.line_bc.HeaderValues)) = some ([5, 6, 4], [5, 6, 4]) :=
  ⟨by decide,
   (ReadNext_block_header paramsDeltaChain 16 stateDeltaChain (by decide)).1.trans (by decide),
   by decide⟩

/-- Claim C3, counterexample: after the 4-bit value 15 a second header with flag 1 and code 3
gives `bitdepth_diff = 17`, and after the 4-bit value 0 a second header with flag 1 and code
0 gives `bitdepth_diff = -2`; both are outside `[0, 15]`. -/
theorem bitdepth_diff_leaves_range :
    (readBlockHeader paramsDeltaUp (ReadNext paramsDeltaUp 16 stateDeltaUp).2).bitdepth_diff = 17 ∧
    ¬ ((readBlockHeader paramsDeltaUp (ReadNext paramsDeltaUp 16 stateDeltaUp).2).bitdepth_diff ≤
      15) ∧
    (readBlockHeader paramsDeltaChain
      (ReadNext paramsDeltaChain 16 stateDeltaDown).2).bitdepth_diff = -2 ∧
    ¬ (0 ≤ (readBlockHeader paramsDeltaChain
      (ReadNext paramsDeltaChain 16 stateDeltaDown).2).bitdepth_diff) := by
  decide

/-- Claim C3 (amended): after `_readBlockHeader`, `bitdepth_diff` is 0 for a lossless
decoder, lies in `[0, 15]` when `read_values_count = 0` (the 4-bit field), and otherwise
differs from its value before the call by at most 2; nothing confines it to `[0, 15]`. -/
theorem readBlockHeader_bitdepth_diff_range (p : Parameters) (s : State) :
    (p.lossless = true → (readBlockHeader p s).bitdepth_diff = 0) ∧
    (p.lossless = false → s.read_values_count = 0 →
      0 ≤ (readBlockHeader p s).bitdepth_diff ∧ (readBlockHeader p s).bitdepth_diff ≤ 15) ∧
    (p.lossless = false → s.read_values_count ≠ 0 →
      s.bitdepth_diff - 2 ≤ (readBlockHeader p s).bitdepth_diff ∧
      (readBlockHeader p s).bitdepth_diff ≤ s.bitdepth_diff + 2) := by
  have h := readBlockHeader_bitdepth_diff p s
  have h4 := ReadBits_lt s.reader 4
  have hcode := ReadBits_lt (s.reader.ReadBits 1).2 2
  refine ⟨?_, ?_, ?_⟩
  · intro hl
    simpa [hl] using h
  · intro hl hr
    rw [h]
    simp only [hl, hr, if_true, Bool.false_eq_true, if_false]
    omega
  · intro hl hr
    rw [h]
    simp only [hl, hr, Bool.false_eq_true, if_false]
    have hd : ∀ c : Nat, c < 4 → -2 ≤ headerDelta c ∧ headerDelta c ≤ 2 := by
      intro c hc
      interval_cases c <;> simp [headerDelta]
    have := hd _ (by simpa using hcode)
    split_ifs <;> omega

/-- Claim C3, witness: the first header of the example line. -/
theorem readBlockHeader_bitdepth_diff_range_witness :
    (paramsDeltaChain.lossless = false ∧ stateDeltaChain.read_values_count = 0) ∧
    (0 ≤ (readBlockHeader paramsDeltaChain stateDeltaChain).bitdepth_diff ∧
      (readBlockHeader paramsDeltaChain stateDeltaChain).bitdepth_diff ≤ 15) :=
  ⟨⟨rfl, rfl⟩, (readBlockHeader_bitdepth_diff_range paramsDeltaChain stateDeltaChain).2.1 rfl rfl⟩

/-- The result of `_roundValue(0, v, r)` is not negative, and at most `r` when `0 ≤ r`. -/
theorem roundValue_bounds (v r : Int) :
    0 ≤ roundValue 0 v r ∧ (0 ≤ r → roundValue 0 v r ≤ r) := by
  unfold roundValue
  simp only
  split_ifs <;> constructor <;> intros <;> omega

/-- Storing a non-negative value in a `uint16_t` does not increase it. -/
theorem toUInt16_le (x : Int) (h : 0 ≤ x) : (toUInt16 x : Int) ≤ x := by
  unfold toUInt16
  omega

/-- A value in `[0, 2 ^ 31)` is unchanged by the conversion to `int`. -/
theorem toInt32_of_lt (x : Int) (h0 : 0 ≤ x) (h1 : x < 2147483648) : toInt32 x = x := by
  have hu : (toUInt32 x : Int) = x := by
    unfold toUInt32
    omega
  have hlt : toUInt32 x < 2147483648 := by omega
  unfold toInt32
  rw [if_pos hlt, hu]

/-- A reconstructed pixel is clamped to `[0, max_allowed_pixel_value]`. -/
theorem pixelValue_bounds (p : Parameters) (bp : BlockParameters) (c o : Int) :
    0 ≤ pixelValue p bp c o ∧
    (0 ≤ p.max_allowed_pixel_value → pixelValue p bp c o ≤ p.max_allowed_pixel_value) := by
  unfold pixelValue
  exact roundValue_bounds _ _

/-- The update of `g` keeps it in `[0, max_allowed_raw_value]`. -/
theorem nextG_bounds (p : Parameters) (value : Int) (a : Nat) (g : Int)
    (h4 : 0 ≤ p.max_allowed_raw_value) (hg0 : 0 ≤ g) (hg : g ≤ p.max_allowed_raw_value) :
    0 ≤ nextG p value a g ∧ nextG p value a g ≤ p.max_allowed_raw_value := by
  unfold nextG
  simp only
  generalize (if value >>> a > 11 then value - 1 else value) = v
  have hr := roundValue_bounds v p.max_allowed_raw_value
  have h1 := hr.1
  have h2 := hr.2 h4
  rw [Int.tdiv_eq_ediv (by omega) (by norm_num)]
  omega

/-- The two pixels that `_processComponentPair` saves are clamped. -/
theorem processComponentPair_new_bounds (p : Parameters) (s : State) :
    (0 ≤ (processComponentPair p s).context_a.last_new_read_values.v0 ∧
      (0 ≤ p.max_allowed_pixel_value →
        (processComponentPair p s).context_a.last_new_read_values.v0 ≤
          p.max_allowed_pixel_value)) ∧
    (0 ≤ (processComponentPair p s).context_b.last_new_read_values.v0 ∧
      (0 ≤ p.max_allowed_pixel_value →
        (processComponentPair p s).context_b.last_new_read_values.v0 ≤
          p.max_allowed_pixel_value)) := by
  simp only [processComponentPair]
  exact ⟨pixelValue_bounds _ _ _ _, pixelValue_bounds _ _ _ _⟩

/-- The samples stored at the end of a pixel iteration. -/
theorem storePixel_samples (p : Parameters) (i : Nat) (s : State) :
    (storePixel p i s).line_a.samples s.current_block_index i =
      toUInt16 s.context_a.last_new_read_values.v0 ∧
    (storePixel p i s).line_bc.samples s.current_block_index i =
      toUInt16 s.context_b.last_new_read_values.v0 := by
  simp [storePixel, ZRawImageBlockLine.setSample, shiftContext]

/-- The two samples written by a pixel of the variable-length mode are at most
`max_allowed_pixel_value`. -/
theorem variableLengthPixel_samples (p : Parameters) (isPrev : Bool) (i : Nat) (s : State)
    (h : 0 ≤ p.max_allowed_pixel_value) :
    ((variableLengthPixel p isPrev i s).line_a.samples s.current_block_index i : Int) ≤
      p.max_allowed_pixel_value ∧
    ((variableLengthPixel p isPrev i s).line_bc.samples s.current_block_index i : Int) ≤
      p.max_allowed_pixel_value := by
  have hc : (processComponentPair p (loadOldValues p isPrev i s)).current_block_index =
      s.current_block_index := by
    simp [processComponentPair, loadOldValues]
  have hs := storePixel_samples p i (processComponentPair p (loadOldValues p isPrev i s))
  rw [hc] at hs
  have hb := processComponentPair_new_bounds p (loadOldValues p isPrev i s)
  unfold variableLengthPixel
  rw [hs.1, hs.2]
  exact ⟨le_trans (toUInt16_le _ hb.1.1) (hb.1.2 h), le_trans (toUInt16_le _ hb.2.1) (hb.2.2 h)⟩

/-- The two samples written by a pixel of the raw mode are below `2 ^ bitdepth_real`. -/
theorem rawPixel_samples (p : Parameters) (isPrev : Bool) (i : Nat) (s : State)
    (ha : (s.parameters_raw_mode.a : Int) ≤ p.bitdepth_real) (hb : p.bitdepth_real ≤ 31) :
    (rawPixel p isPrev i s).line_a.samples s.current_block_index i < 2 ^ p.bitdepth_real.toNat ∧
    (rawPixel p isPrev i s).line_bc.samples s.current_block_index i <
      2 ^ p.bitdepth_real.toNat := by
  have key : ∀ v : Nat, v < 2 ^ toUInt32 (p.bitdepth_real - s.parameters_raw_mode.a) →
      toUInt16 (toInt32 ((v <<< s.parameters_raw_mode.a % 4294967296 : Nat) : Int)) <
        2 ^ p.bitdepth_real.toNat := by
    intro v hv
    have hn : toUInt32 (p.bitdepth_real - s.parameters_raw_mode.a) =
        p.bitdepth_real.toNat - s.parameters_raw_mode.a := by
      unfold toUInt32
      omega
    rw [hn] at hv
    have hle : s.parameters_raw_mode.a ≤ p.bitdepth_real.toNat := by omega
    have hpow : 2 ^ (p.bitdepth_real.toNat - s.parameters_raw_mode.a) *
        2 ^ s.parameters_raw_mode.a = 2 ^ p.bitdepth_real.toNat := by
      rw [← pow_add, Nat.sub_add_cancel hle]
    have hlt : v <<< s.parameters_raw_mode.a < 2 ^ p.bitdepth_real.toNat := by
      rw [Nat.shiftLeft_eq, ← hpow]
      exact Nat.mul_lt_mul_of_pos_right hv (by positivity)
    have h31 : 2 ^ p.bitdepth_real.toNat ≤ 2 ^ 31 :=
      Nat.pow_le_pow_right (by norm_num) (by omega)
    generalize v <<< s.parameters_raw_mode.a = w at hlt ⊢
    generalize 2 ^ p.bitdepth_real.toNat = M at hlt h31 ⊢
    have h31 : M ≤ 2147483648 := by simpa using h31
    rw [Nat.mod_eq_of_lt (by omega), toInt32_of_lt _ (by omega) (by omega)]
    have := toUInt16_le (w : Int) (by omega)
    omega
  have h1 := key _ (ReadBits_lt s.reader (toUInt32 (p.bitdepth_real - s.parameters_raw_mode.a)))
  have h2 := key _ (ReadBits_lt
    (s.reader.ReadBits (toUInt32 (p.bitdepth_real - s.parameters_raw_mode.a))).2
    (toUInt32 (p.bitdepth_real - s.parameters_raw_mode.a)))
  simp only [rawPixel, restoreNewB, readRawValues, storePixel, loadOldValues,
    ZRawImageBlockLine.setSample, shiftContext, and_self, if_true]
  exact ⟨h1, h2⟩

/-- A pixel iteration writes no sample other than `[current_block_index][i]`. -/
theorem pixel_keeps_other_samples (p : Parameters) (isPrev : Bool) (i : Nat) (s : State)
    (b j : Nat) (h : ¬ (b = s.current_block_index ∧ j = i)) :
    ((variableLengthPixel p isPrev i s).line_a.samples b j = s.line_a.samples b j ∧
      (variableLengthPixel p isPrev i s).line_bc.samples b j = s.line_bc.samples b j) ∧
    ((rawPixel p isPrev i s).line_a.samples b j = s.line_a.samples b j ∧
      (rawPixel p isPrev i s).line_bc.samples b j = s.line_bc.samples b j) := by
  simp [variableLengthPixel, rawPixel, restoreNewB, readRawValues, storePixel,
    processComponentPair, loadOldValues, ZRawImageBlockLine.setSample, h]

/-- The pixel loop started at `i0` writes no sample of an index below `i0` and no sample
of another block. -/
theorem pixelLoop_keeps_samples (p : Parameters) (body : Nat → State → State)
    (hframe : ∀ i s, SameBlockFrame s (body i s))
    (hkeep : ∀ i s b j, ¬ (b = s.current_block_index ∧ j = i) →
      (body i s).line_a.samples b j = s.line_a.samples b j ∧
      (body i s).line_bc.samples b j = s.line_bc.samples b j) :
    ∀ (n i0 : Nat) (s : State) (b j : Nat), (b ≠ s.current_block_index ∨ j < i0) →
      (pixelLoop p body n i0 s).line_a.samples b j = s.line_a.samples b j ∧
      (pixelLoop p body n i0 s).line_bc.samples b j = s.line_bc.samples b j := by
  intro n
  induction n with
  | zero => intro i0 s b j _; simp [pixelLoop]
  | succ n ih =>
    intro i0 s b j h
    simp only [pixelLoop]
    split_ifs
    · have hc : (body i0 s).current_block_index = s.current_block_index := (hframe i0 s).1
      have h1 := ih (i0 + 1) { body i0 s with read_values_count := (body i0 s).read_values_count + 1 }
        b j (by simp only [hc]; omega)
      have h2 := hkeep i0 s b j (by omega)
      exact ⟨h1.1.trans h2.1, h1.2.trans h2.2⟩
    · exact ⟨rfl, rfl⟩

/-- Rule for the samples written by the pixel loop: every sample that an iteration of the
loop has written satisfies the property that the body establishes. -/
theorem pixelLoop_samples (p : Parameters) (body : Nat → State → State) (I : State → Prop)
    (Q : Nat → Prop)
    (hframe : ∀ i s, SameBlockFrame s (body i s))
    (hkeep : ∀ i s b j, ¬ (b = s.current_block_index ∧ j = i) →
      (body i s).line_a.samples b j = s.line_a.samples b j ∧
      (body i s).line_bc.samples b j = s.line_bc.samples b j)
    (hI : ∀ i s, I s → I { body i s with read_values_count := (body i s).read_values_count + 1 })
    (hrvc : ∀ i s, (body i s).read_values_count = s.read_values_count)
    (hwrite : ∀ i s, I s → Q ((body i s).line_a.samples s.current_block_index i) ∧
      Q ((body i s).line_bc.samples s.current_block_index i)) :
    ∀ (n i0 : Nat) (s : State), I s → ∀ j, i0 ≤ j → j < i0 + n →
      (s.read_values_count : Int) + ((j - i0 : Nat) : Int) < p.max_values_count →
      Q ((pixelLoop p body n i0 s).line_a.samples s.current_block_index j) ∧
      Q ((pixelLoop p body n i0 s).line_bc.samples s.current_block_index j) := by
  intro n
  induction n with
  | zero => intro i0 s _ j h1 h2; omega
  | succ n ih =>
    intro i0 s hs j h1 h2 h3
    have hg : (s.read_values_count : Int) < p.max_values_count := by omega
    have hc : (body i0 s).current_block_index = s.current_block_index := (hframe i0 s).1
    simp only [pixelLoop, hg, if_true]
    by_cases hj : j = i0
    · subst hj
      have hk := pixelLoop_keeps_samples p body hframe hkeep n (j + 1)
        { body j s with read_values_count := (body j s).read_values_count + 1 }
        s.current_block_index j (Or.inr (Nat.lt_succ_self j))
      rw [hk.1, hk.2]
      exact hwrite j s hs
    · have := ih (i0 + 1) { body i0 s with read_values_count := (body i0 s).read_values_count + 1 }
        (hI i0 s hs) j (by omega) (by omega) (by simp only [hrvc]; omega)
      simpa only [hc] using this

/-- A pixel body keeps `_read_values_count` (the loop increments it). -/
theorem pixel_read_values_count (p : Parameters) (isPrev : Bool) (i : Nat) (s : State) :
    (variableLengthPixel p isPrev i s).read_values_count = s.read_values_count ∧
    (rawPixel p isPrev i s).read_values_count = s.read_values_count := by
  simp [variableLengthPixel, rawPixel, restoreNewB, readRawValues, storePixel,
    processComponentPair, loadOldValues]


/-- Claim C4 (amended): every sample written to `line_a` or `line_bc` by a block decode in
variable-length mode satisfies `0 ≤ s ≤ max_allowed_pixel_value` provided
`max_allowed_pixel_value ≥ 0`; a sample written in raw mode is the field read, shifted left
by `a`, and is not clamped: it satisfies `0 ≤ s < 2 ^ bitdepth_real` when
`a ≤ bitdepth_real ≤ 31`, hence `s ≤ max_allowed_pixel_value` only when
`2 ^ bitdepth_real - 1 ≤ max_allowed_pixel_value`. Samples are naturals, so `0 ≤ s` holds
by type. -/
theorem block_samples_in_range (p : Parameters) (B : Nat) (isPrev : Bool) (s : State) :
    (0 ≤ p.max_allowed_pixel_value → ∀ j, j < B →
      (s.read_values_count : Int) + (j : Int) < p.max_values_count →
      ((readNextBlockVariableLengthMode p B isPrev s).line_a.samples
          s.current_block_index j : Int) ≤ p.max_allowed_pixel_value ∧
      ((readNextBlockVariableLengthMode p B isPrev s).line_bc.samples
          s.current_block_index j : Int) ≤ p.max_allowed_pixel_value) ∧
    ((s.parameters_raw_mode.a : Int) ≤ p.bitdepth_real → p.bitdepth_real ≤ 31 → ∀ j, j < B →
      (s.read_values_count : Int) + (j : Int) < p.max_values_count →
      ((readNextBlockRawMode p B isPrev s).line_a.samples s.current_block_index j <
          2 ^ p.bitdepth_real.toNat ∧
        (readNextBlockRawMode p B isPrev s).line_bc.samples s.current_block_index j <
          2 ^ p.bitdepth_real.toNat) ∧
      (((2 ^ p.bitdepth_real.toNat : Nat) : Int) ≤ p.max_allowed_pixel_value + 1 →
        ((readNextBlockRawMode p B isPrev s).line_a.samples
            s.current_block_index j : Int) ≤ p.max_allowed_pixel_value ∧
        ((readNextBlockRawMode p B isPrev s).line_bc.samples
            s.current_block_index j : Int) ≤ p.max_allowed_pixel_value)) := by
  constructor
  · intro h j hj hr
    have := pixelLoop_samples p (variableLengthPixel p isPrev) (fun _ => True)
      (fun v => (v : Int) ≤ p.max_allowed_pixel_value)
      (variableLengthPixel_frame p isPrev)
      (fun i s b j hne => (pixel_keeps_other_samples p isPrev i s b j hne).1)
      (fun _ _ _ => trivial)
      (fun i s => (pixel_read_values_count p isPrev i s).1)
      (fun i s _ => variableLengthPixel_samples p isPrev i s h)
      B 0 s trivial j (Nat.zero_le j) (by omega) (by simpa using hr)
    exact this
  · intro ha hb j hj hr
    have := pixelLoop_samples p (rawPixel p isPrev)
      (fun t => t.parameters_raw_mode = s.parameters_raw_mode)
      (fun v => v < 2 ^ p.bitdepth_real.toNat)
      (rawPixel_frame p isPrev)
      (fun i s b j hne => (pixel_keeps_other_samples p isPrev i s b j hne).2)
      (fun i t ht => by
        have := (rawPixel_frame p isPrev i t).2.2.2.2.2.2.1
        simpa [ht] using this)
      (fun i s => (pixel_read_values_count p isPrev i s).2)
      (fun i t ht => rawPixel_samples p isPrev i t (by rw [ht]; exact ha) hb)
      B 0 s rfl j (Nat.zero_le j) (by omega) (by simpa using hr)
    refine ⟨this, fun hm => ?_⟩
    unfold readNextBlockRawMode at *
    omega

/-- Claim C4, witness: the first sample of a variable-length block of the example line. -/
theorem block_samples_in_range_witness :
    (0 ≤ paramsDeltaChain.max_allowed_pixel_value ∧ 0 < 16 ∧
      (stateDeltaChain.read_values_count : Int) + ((0 : Nat) : Int) <
        paramsDeltaChain.max_values_count) ∧
    (((readNextBlockVariableLengthMode paramsDeltaChain 16 false stateDeltaChain).line_a.samples
        stateDeltaChain.current_block_index 0 : Int) ≤ paramsDeltaChain.max_allowed_pixel_value ∧
      ((readNextBlockVariableLengthMode paramsDeltaChain 16 false stateDeltaChain).line_bc.samples
        stateDeltaChain.current_block_index 0 : Int) ≤ paramsDeltaChain.max_allowed_pixel_value) :=
  ⟨⟨by decide, by decide, by decide⟩,
   (block_samples_in_range paramsDeltaChain 16 false stateDeltaChain).1 (by decide) 0
     (by decide) (by decide)⟩

/-- Claim C4, counterexample: with `bitdepth_real = 12` and `max_allowed_pixel_value = 1023`
a raw block whose first field is 4095 writes the sample 4095 to `line_a`. -/
theorem raw_sample_exceeds_max :
    (readBlockHeader paramsRawWide stateRawWide).decoding_mode = RAW_MODE ∧
    (ReadNext paramsRawWide 16 stateRawWide).2.line_a.samples 0 0 = 4095 ∧
    ¬ (((ReadNext paramsRawWide 16 stateRawWide).2.line_a.samples 0 0 : Int) ≤
      paramsRawWide.max_allowed_pixel_value) := by
  decide

/-- The decode of a pixel pair keeps `g` of both contexts in `[0, max_allowed_raw_value]`. -/
theorem processComponentPair_GBounded (p : Parameters) (s : State)
    (h : 0 ≤ p.max_allowed_raw_value) (hs : GBounded p s) :
    GBounded p (processComponentPair p s) := by
  obtain ⟨⟨a0, a1⟩, ⟨b0, b1⟩⟩ := hs
  simp only [GBounded, processComponentPair]
  exact ⟨nextG_bounds p _ _ _ h a0 a1, nextG_bounds p _ _ _ h b0 b1⟩

/-- The end of a pixel iteration keeps `g`. -/
theorem storePixel_g (p : Parameters) (i : Nat) (s : State) :
    (storePixel p i s).context_a.g = s.context_a.g ∧
    (storePixel p i s).context_b.g = s.context_b.g :=
  ⟨rfl, rfl⟩

/-- Loading the samples of the previous line keeps `g`. -/
theorem loadOldValues_g (p : Parameters) (isPrev : Bool) (i : Nat) (s : State) :
    (loadOldValues p isPrev i s).context_a.g = s.context_a.g ∧
    (loadOldValues p isPrev i s).context_b.g = s.context_b.g :=
  ⟨rfl, rfl⟩

/-- A pixel of the variable-length mode keeps the bounds on `g`. -/
theorem variableLengthPixel_GBounded (p : Parameters) (isPrev : Bool) (i : Nat) (s : State)
    (h : 0 ≤ p.max_allowed_raw_value) (hs : GBounded p s) :
    GBounded p (variableLengthPixel p isPrev i s) := by
  have h1 : GBounded p (loadOldValues p isPrev i s) := by
    simp only [GBounded, (loadOldValues_g p isPrev i s).1, (loadOldValues_g p isPrev i s).2]
    exact hs
  have h2 := processComponentPair_GBounded p _ h h1
  simp only [GBounded] at h2
  simp only [GBounded, variableLengthPixel, (storePixel_g p i _).1, (storePixel_g p i _).2]
  exact h2

/-- A pixel of the raw mode keeps `g`. -/
theorem rawPixel_g (p : Parameters) (isPrev : Bool) (i : Nat) (s : State) :
    (rawPixel p isPrev i s).context_a.g = s.context_a.g ∧
    (rawPixel p isPrev i s).context_b.g = s.context_b.g := by
  have h1 : ∀ (old : Int) (t : State), (restoreNewB old t).context_a.g = t.context_a.g ∧
      (restoreNewB old t).context_b.g = t.context_b.g := fun _ _ => ⟨rfl, rfl⟩
  have h2 : ∀ t : State, (readRawValues p t).context_a.g = t.context_a.g ∧
      (readRawValues p t).context_b.g = t.context_b.g := by
    intro t
    unfold readRawValues
    exact ⟨rfl, rfl⟩
  simp only [rawPixel, (h1 _ _).1, (h1 _ _).2, (storePixel_g p i _).1, (storePixel_g p i _).2,
    (h2 _).1, (h2 _).2, (loadOldValues_g p isPrev i s).1, (loadOldValues_g p isPrev i s).2,
    and_self]

/-- The statements that open a block keep `g`. -/
theorem blockStart_g (p : Parameters) (s : State) :
    (blockStart p s).context_a.g = s.context_a.g ∧
    (blockStart p s).context_b.g = s.context_b.g := by
  unfold blockStart initBlockParameters readBlockHeader readDecodingMode
  simp only
  split_ifs <;> exact ⟨rfl, rfl⟩

/-- The decode of a block, stopped after any number of pixels, keeps the bounds on `g`. -/
theorem decodeBlockUpTo_GBounded (p : Parameters) (n : Nat) (s : State)
    (h : 0 ≤ p.max_allowed_raw_value) (hs : GBounded p s) :
    GBounded p (decodeBlockUpTo p n s) := by
  have h0 : GBounded p (blockStart p s) := by
    have := blockStart_g p s
    simp only [GBounded, this.1, this.2]
    exact hs
  unfold decodeBlockUpTo
  simp only
  split_ifs
  · apply pixelLoop_invariant p _ (GBounded p) _ _ n 0 _ h0
    · intro i t ht
      have := rawPixel_g p (decide ((blockStart p s).current_line_index > 0)) i t
      simp only [GBounded, this.1, this.2]
      exact ht
    · intro t ht
      exact ht
  · apply pixelLoop_invariant p _ (GBounded p) _ _ n 0 _ h0
    · intro i t ht
      exact variableLengthPixel_GBounded p _ i t h ht
    · intro t ht
      exact ht

/-- A call of `ReadNext` keeps the bounds on `g`. -/
theorem readNextState_GBounded (p : Parameters) (B : Nat) (s : State)
    (h : 0 ≤ p.max_allowed_raw_value) (hs : GBounded p s) :
    GBounded p (readNextState p B s) := by
  have hd := decodeBlockUpTo_GBounded p B s h hs
  unfold readNextState ReadNext readBlock alignLastBlock
  simp only
  split_ifs <;> first | exact hs | exact hd

/-- Claim C5 (amended): provided `max_allowed_raw_value ≥ 4`, the decode of a pixel pair keeps
`g` of context A and of context B in `[0, max_allowed_raw_value]`, and starting from the
line-start contexts (`g = 4`) the bounds hold after every pixel of the line: after `j`
calls of `ReadNext` and at most `k` further pixels of the next block, for all `j` and `k`. -/
theorem g_in_range (p : Parameters) (B : Nat) (h : 4 ≤ p.max_allowed_raw_value) :
    (∀ s, GBounded p s → GBounded p (processComponentPair p s)) ∧
    (∀ (s0 : State), s0.context_a.g = 4 → s0.context_b.g = 4 → ∀ (j k : Nat),
      GBounded p (decodeBlockUpTo p k ((readNextState p B)^[j] s0))) := by
  have h0 : 0 ≤ p.max_allowed_raw_value := by omega
  refine ⟨fun s hs => processComponentPair_GBounded p s h0 hs, ?_⟩
  intro s0 ha hb j k
  apply decodeBlockUpTo_GBounded p k _ h0
  have hs0 : GBounded p s0 := by
    simp only [GBounded, ha, hb]
    omega
  clear ha hb
  induction j with
  | zero => simpa using hs0
  | succ j ih =>
    rw [Function.iterate_succ_apply']
    exact readNextState_GBounded p B _ h0 ih

/-- Claim C5, witness: the example line after one block and three pixels. -/
theorem g_in_range_witness :
    (4 ≤ paramsDeltaChain.max_allowed_raw_value ∧ stateDeltaChain.context_a.g = 4 ∧
      stateDeltaChain.context_b.g = 4) ∧
    GBounded paramsDeltaChain
      (decodeBlockUpTo paramsDeltaChain 3 ((readNextState paramsDeltaChain 16)^[1] stateDeltaChain)) :=
  ⟨⟨by decide, by decide, by decide⟩,
   (g_in_range paramsDeltaChain 16 (by decide)).2 stateDeltaChain (by decide) (by decide) 1 3⟩

/-- Claim C5, counterexample: with `max_allowed_raw_value = 3`, the first pixel pair of a
variable-length block, decoded from the line-start contexts with the constructed value 3,
leaves `g = (2 * 3 + 2 * 4 + 2) / 4 = 4` in context A, above `max_allowed_raw_value`. -/
theorem g_exceeds_small_raw_limit :
    stateSmallRaw.context_a.g = 4 ∧
    (readBlockHeader paramsSmallRaw stateSmallRaw).decoding_mode = 0 ∧
    (decodeBlockUpTo paramsSmallRaw 1 stateSmallRaw).context_a.g = 4 ∧
    ¬ ((decodeBlockUpTo paramsSmallRaw 1 stateSmallRaw).context_a.g ≤
      paramsSmallRaw.max_allowed_raw_value) := by
  decide

/-- The pixel loop bounded by `n` decodes `min n (max_values_count - read_values_count)`
pixels. -/
theorem pixelLoop_read_values_count (p : Parameters) (body : Nat → State → State)
    (hrvc : ∀ i s, (body i s).read_values_count = s.read_values_count) :
    ∀ (n i : Nat) (s : State), (pixelLoop p body n i s).read_values_count =
      s.read_values_count + min n (p.max_values_count - s.read_values_count).toNat := by
  intro n
  induction n with
  | zero => intro i s; simp [pixelLoop]
  | succ n ih =>
    intro i s
    simp only [pixelLoop]
    split_ifs with hg
    · rw [ih]
      simp only [hrvc]
      omega
    · omega

/-- The number of values read by a block stopped after at most `n` pixels. -/
theorem decodeBlockUpTo_read_values_count (p : Parameters) (n : Nat) (s : State) :
    (decodeBlockUpTo p n s).read_values_count =
      s.read_values_count + min n (p.max_values_count - s.read_values_count).toNat := by
  have hb := (blockStart_fields p s).2.2.2.2.1
  unfold decodeBlockUpTo readNextBlockRawMode readNextBlockVariableLengthMode
  simp only
  split_ifs
  · rw [pixelLoop_read_values_count p _ (fun i s => (pixel_read_values_count p _ i s).2), hb]
  · rw [pixelLoop_read_values_count p _ (fun i s => (pixel_read_values_count p _ i s).1), hb]

/-- The counters after the decode of one block. -/
theorem readBlock_counters (p : Parameters) (B : Nat) (s : State) :
    (readBlock p B s).current_block_index = s.current_block_index + 1 ∧
    (readBlock p B s).read_values_count =
      s.read_values_count + min B (p.max_values_count - s.read_values_count).toNat := by
  have hr := decodeBlockUpTo_read_values_count p B s
  have hc : (decodeBlockUpTo p B s).current_block_index = s.current_block_index :=
    (decodeBlockUpTo_frame p B s).1.trans (blockStart_fields p s).2.2.1
  unfold readBlock alignLastBlock
  simp only
  split_ifs <;> exact ⟨by simp [hc], hr⟩

/-- With more fuel than blocks left, `ReadLine` returns the state after the decode of
exactly the blocks left. -/
theorem ReadLine_eq_iterate (p : Parameters) (B : Nat) :
    ∀ (m : Nat) (s : State), (p.blocks_count - s.current_block_index).toNat = m →
      ∀ fuel, m < fuel → ReadLine p B fuel s = some ((readBlock p B)^[m] s) := by
  intro m
  induction m with
  | zero =>
    intro s hm fuel hf
    obtain ⟨f, rfl⟩ : ∃ f, fuel = f + 1 := ⟨fuel - 1, by omega⟩
    have hg : (s.current_block_index : Int) ≥ p.blocks_count := by omega
    simp [ReadLine, ReadNext, hg]
  | succ m ih =>
    intro s hm fuel hf
    obtain ⟨f, rfl⟩ : ∃ f, fuel = f + 1 := ⟨fuel - 1, by omega⟩
    have hg : ¬ ((s.current_block_index : Int) ≥ p.blocks_count) := by omega
    have hc := (readBlock_counters p B s).1
    rw [Function.iterate_succ_apply]
    by_cases hlast : ((readBlock p B s).current_block_index : Int) ≥ p.blocks_count
    · have hm0 : m = 0 := by rw [hc] at hlast; push_cast at hlast; omega
      subst hm0
      simp [ReadLine, ReadNext, hg, hlast]
    · have := ih (readBlock p B s) (by rw [hc]; push_cast; omega) f (by omega)
      simp [ReadLine, ReadNext, hg, hlast, this]

/-- The counters after `m` blocks decoded from a line start. -/
theorem iterate_readBlock_counters (p : Parameters) (B : Nat) (s : State)
    (hr : s.read_values_count = 0) (hc : s.current_block_index = 0) :
    ∀ m : Nat, ((readBlock p B)^[m] s).current_block_index = m ∧
      ((readBlock p B)^[m] s).read_values_count = min (m * B) p.max_values_count.toNat := by
  intro m
  induction m with
  | zero => simp [hr, hc]
  | succ m ih =>
    rw [Function.iterate_succ_apply']
    have h := readBlock_counters p B ((readBlock p B)^[m] s)
    rw [h.1, h.2, ih.1, ih.2, Nat.succ_mul]
    refine ⟨rfl, ?_⟩
    omega

/-- A call of `ReadNext` keeps `read_values_count ≤ max_values_count`. -/
theorem readNextState_read_values_count_le (p : Parameters) (B : Nat) (s : State)
    (h : (s.read_values_count : Int) ≤ p.max_values_count) :
    ((readNextState p B s).read_values_count : Int) ≤ p.max_values_count := by
  have hb := (readBlock_counters p B s).2
  unfold readNextState ReadNext
  simp only
  split_ifs
  · exact h
  · rw [hb]
    omega

/-- Claim C6: for `0 ≤ max_values_count ≤ blocks_count * B`, from a line start
(`read_values_count = 0`, `current_block_index = 0`), `ReadLine` completes the line (with any
fuel above `blocks_count`) with `read_values_count = max_values_count`, and
`read_values_count ≤ max_values_count` holds after every pixel: after `j` calls of `ReadNext`
and at most `k` further pixels of the next block, whatever modes the bit stream selects. -/
theorem ReadLine_read_values_count (p : Parameters) (B : Nat)
    (h0 : 0 ≤ p.max_values_count) (h1 : p.max_values_count ≤ p.blocks_count * B)
    (s : State) (hr : s.read_values_count = 0) (hc : s.current_block_index = 0) :
    (∀ fuel, p.blocks_count.toNat < fuel →
      (ReadLine p B fuel s).map (fun t => (t.read_values_count : Int)) =
        some p.max_values_count) ∧
    (∀ j k : Nat, ((decodeBlockUpTo p k ((readNextState p B)^[j] s)).read_values_count : Int) ≤
      p.max_values_count) := by
  constructor
  · intro fuel hf
    have hm : (p.blocks_count - s.current_block_index).toNat = p.blocks_count.toNat := by
      rw [hc]; simp
    rw [ReadLine_eq_iterate p B _ s hm fuel hf]
    have hcnt := (iterate_readBlock_counters p B s hr hc p.blocks_count.toNat).2
    simp only [Option.map_some', hcnt, Option.some.injEq]
    have hle : p.max_values_count.toNat ≤ p.blocks_count.toNat * B := by
      rcases le_or_lt 0 p.blocks_count with hb | hb
      · have : ((p.blocks_count.toNat * B : Nat) : Int) = p.blocks_count * B := by
          push_cast
          rw [Int.toNat_of_nonneg hb]
        omega
      · have : p.blocks_count * (B : Int) ≤ 0 :=
          mul_nonpos_of_nonpos_of_nonneg (le_of_lt hb) (Int.ofNat_nonneg B)
        omega
    rw [Nat.min_eq_right hle]
    exact Int.toNat_of_nonneg h0
  · intro j k
    have hj : (((readNextState p B)^[j] s).read_values_count : Int) ≤ p.max_values_count := by
      induction j with
      | zero => simp [hr, h0]
      | succ j ih =>
        rw [Function.iterate_succ_apply']
        exact readNextState_read_values_count_le p B _ ih
    rw [decodeBlockUpTo_read_values_count]
    omega

/-- Claim C6, witness: the example line of 3 blocks and 48 values. -/
theorem ReadLine_read_values_count_witness :
    (0 ≤ paramsDeltaChain.max_values_count ∧
      paramsDeltaChain.max_values_count ≤ paramsDeltaChain.blocks_count * (16 : Nat) ∧
      stateDeltaChain.read_values_count = 0 ∧ stateDeltaChain.current_block_index = 0 ∧
      paramsDeltaChain.blocks_count.toNat < 4) ∧
    (ReadLine paramsDeltaChain 16 4 stateDeltaChain).map (fun t => (t.read_values_count : Int)) =
      some paramsDeltaChain.max_values_count :=
  ⟨⟨by decide, by decide, by decide, by decide, by decide⟩,
   (ReadLine_read_values_count paramsDeltaChain 16 (by decide) (by decide) stateDeltaChain
     (by decide) (by decide)).1 4 (by decide)⟩

/-- The arithmetic shift of an `int` by one bit is the floor of the half. -/
theorem Int_shiftRight_one (x : Int) : x >>> (1 : Nat) = x / 2 := by
  rw [Int.shiftRight_eq_div_pow]
  norm_num

/-- The signed residual of a constructed value, by parity. -/
theorem complementValue_eq (v : Int) :
    complementValue v = if v % 2 = 0 then v / 2 else -((v + 1) / 2) := by
  unfold complementValue
  simp only [Int_shiftRight_one]
  by_cases h : v % 2 = 0
  · simp only [h, ne_eq, not_true_eq_false, decide_False, Bool.false_eq_true, if_false, if_true]
    omega
  · simp only [h, ne_eq, not_false_eq_true, decide_True, if_true, if_false]

/-- Claim C16: for every constructed value `v ≥ 0` the signed residual computed from
`sign = v & 1` and `body = (v + 1) >> 1` is `k` when `v = 2k` and `-(k + 1)` when
`v = 2k + 1`; the mapping enumerates 0, -1, 1, -2, 2, … and is a bijection from the
non-negative integers onto the integers. -/
theorem complementValue_interleave :
    (∀ k : Nat, complementValue (2 * (k : Int)) = k ∧
      complementValue (2 * (k : Int) + 1) = -((k : Int) + 1)) ∧
    (List.range 5).map (fun v : Nat => complementValue v) = [0, -1, 1, -2, 2] ∧
    Function.Bijective (fun v : Nat => complementValue v) := by
  have hform : ∀ k : Nat, complementValue (2 * (k : Int)) = k ∧
      complementValue (2 * (k : Int) + 1) = -((k : Int) + 1) := by
    intro k
    constructor
    · rw [complementValue_eq]
      have : (2 * (k : Int)) % 2 = 0 := by omega
      rw [if_pos this]
      omega
    · rw [complementValue_eq]
      have : ¬ ((2 * (k : Int) + 1) % 2 = 0) := by omega
      rw [if_neg this]
      omega
  refine ⟨hform, by decide, ?_, ?_⟩
  · intro a b hab
    simp only [complementValue_eq] at hab
    split_ifs at hab <;> omega
  · intro z
    rcases le_or_lt 0 z with hz | hz
    · refine ⟨(2 * z).toNat, ?_⟩
      have h := (hform z.toNat).1
      have e : ((2 * z).toNat : Int) = 2 * (z.toNat : Int) := by omega
      simp only [e, h]
      omega
    · refine ⟨(2 * (-z - 1) + 1).toNat, ?_⟩
      have h := (hform (-z - 1).toNat).2
      have e : ((2 * (-z - 1) + 1).toNat : Int) = 2 * ((-z - 1).toNat : Int) + 1 := by omega
      simp only [e, h]
      omega

/-- Claim C17, counterexample: for `g = 128` no `i` in `[0..6]` has `g >> (i + 1) == 0`, and
the function returns 6 although `128 >> 7 = 1`. -/
theorem getValueBitSizeMinus1_ButMax6_cap :
    getValueBitSizeMinus1_ButMax6 128 = 6 ∧
    ¬ ((128 : Int) >>> (getValueBitSizeMinus1_ButMax6 128 + 1) = 0) ∧
    ∀ i : Nat, i ≤ 6 → (128 : Int) >>> (i + 1) ≠ 0 := by
  decide

/-- Claim C17 (amended): for every value `x` of `g`, `_getValueBitSizeMinus1_ButMax6(x)`
returns the smallest `i` in `[0..5]` such that `x >> (i + 1) == 0`, and the cap 6 when there
is none; for `0 ≤ x < 128` this is the smallest `i` in `[0..6]` with `x >> (i + 1) == 0`. -/
theorem getValueBitSizeMinus1_ButMax6_spec (x : Int) :
    getValueBitSizeMinus1_ButMax6 x ≤ 6 ∧
    (∀ j : Nat, j < getValueBitSizeMinus1_ButMax6 x → x >>> (j + 1) ≠ 0) ∧
    (getValueBitSizeMinus1_ButMax6 x < 6 → x >>> (getValueBitSizeMinus1_ButMax6 x + 1) = 0) ∧
    (0 ≤ x → x < 128 → x >>> (getValueBitSizeMinus1_ButMax6 x + 1) = 0) := by
  have h7 : 0 ≤ x → x < 128 → x >>> (0 + 1 + 1 + 1 + 1 + 1 + 1 + 1 : Nat) = 0 := by
    intro h0 h1
    rw [Int.shiftRight_eq_div_pow]
    norm_num
    omega
  simp only [getValueBitSizeMinus1_ButMax6, bitSizeScan]
  refine ⟨?_, ?_, ?_, ?_⟩
  · split_ifs <;> omega
  · split_ifs <;> intro j hj <;> interval_cases j <;> assumption
  · split_ifs <;> intro h <;> first | assumption | omega
  · intro h0 h1
    split_ifs <;> first | assumption | exact h7 h0 h1

/-- Claim C17, witness: `g = 4` has bit size 3, the function returns 2. -/
theorem getValueBitSizeMinus1_ButMax6_spec_witness :
    ((0 : Int) ≤ 4 ∧ (4 : Int) < 128) ∧
    (4 : Int) >>> (getValueBitSizeMinus1_ButMax6 4 + 1) = 0 :=
  ⟨⟨by decide, by decide⟩, (getValueBitSizeMinus1_ButMax6_spec 4).2.2.2 (by decide) (by decide)⟩

/-- Claim C18: with `lo = min(p1, p2)` and `hi = max(p1, p2)`, `_fixPrediction(p1, p2, value)`
equals `lo + hi - m` where `m` is the median of `lo`, `hi` and `value`: it is `lo` when
`hi ≤ value`, `lo + hi - value` when `lo < value < hi`, `hi` when `value ≤ lo`; the result
lies in `[lo, hi]`, and in the strict-interior case it equals
`((-(value - lo)) mod (hi - lo)) + lo` with the non-negative modulus. -/
theorem fixPrediction_median (p1 p2 value : Int) :
    fixPrediction p1 p2 value = min p1 p2 + max p1 p2 - median3 (min p1 p2) (max p1 p2) value ∧
    (max p1 p2 ≤ value → fixPrediction p1 p2 value = min p1 p2) ∧
    (min p1 p2 < value → value < max p1 p2 →
      fixPrediction p1 p2 value = min p1 p2 + max p1 p2 - value) ∧
    (value ≤ min p1 p2 → fixPrediction p1 p2 value = max p1 p2) ∧
    (min p1 p2 ≤ fixPrediction p1 p2 value ∧ fixPrediction p1 p2 value ≤ max p1 p2) ∧
    (min p1 p2 < value → value < max p1 p2 →
      fixPrediction p1 p2 value =
        (-(value - min p1 p2)) % (max p1 p2 - min p1 p2) + min p1 p2) := by
  have hmod : ∀ lo hi v : Int, lo < v → v < hi → (-(v - lo)) % (hi - lo) = hi - v := by
    intro lo hi v h1 h2
    have h : -(v - lo) = (hi - v) + (hi - lo) * (-1) := by ring
    rw [h, Int.add_mul_emod_self_left, Int.emod_eq_of_lt (by omega) (by omega)]
  have hfix : fixPrediction p1 p2 value =
      if max p1 p2 ≤ value then min p1 p2
      else if min p1 p2 < value then min p1 p2 + max p1 p2 - value else max p1 p2 := by
    unfold fixPrediction
    simp only
    split_ifs <;> omega
  refine ⟨?_, ?_, ?_, ?_, ?_, ?_⟩
  · rw [hfix]
    unfold median3
    split_ifs <;> omega
  · intro h; rw [hfix, if_pos h]
  · intro h1 h2; rw [hfix, if_neg (by omega), if_pos h1]
  · intro h
    rw [hfix]
    split_ifs <;> omega
  · rw [hfix]
    split_ifs <;> omega
  · intro h1 h2
    rw [hmod _ _ _ h1 h2, hfix, if_neg (by omega), if_pos h1]
    omega

/-- Claim C18, witness: neighbours 10 and 4, value 6: the result is `4 + 10 - 6 = 8`. -/
theorem fixPrediction_median_witness :
    (min (10 : Int) 4 < 6 ∧ (6 : Int) < max 10 4) ∧
    fixPrediction 10 4 6 = min 10 4 + max 10 4 - 6 :=
  ⟨⟨by decide, by decide⟩, (fixPrediction_median 10 4 6).2.2.1 (by decide) (by decide)⟩

/-- A natural below `2 ^ 32` is unchanged by the conversion to `uint32_t`. -/
theorem toUInt32_natCast (m : Nat) (h : m < 4294967296) : toUInt32 (m : Int) = m := by
  unfold toUInt32
  omega

/-- The block parameters for a bit depth difference `n ≤ 15`, as numbers. -/
theorem blockParameters_values (p : Parameters) (n : Nat) (hn : n ≤ 15)
    (hM0 : 0 ≤ p.max_allowed_pixel_value) (hM : p.max_allowed_pixel_value < 2147483648) :
    (blockParameters p n).a = n ∧
    (blockParameters p n).b = 2 ^ n ∧
    (blockParameters p n).c = 2 ^ n / 2 - 1 ∧
    (blockParameters p n).d =
      (2 * (2 ^ n / 2 - 1) + p.max_allowed_pixel_value.toNat) / 2 ^ n + 1 ∧
    (blockParameters p n).f = toUInt32 (p.bitdepth_real - n) := by
  have ha : toUInt32 (n : Int) = n := toUInt32_natCast n (by omega)
  have hpow : 2 ^ n ≤ 32768 := by
    calc 2 ^ n ≤ 2 ^ 15 := Nat.pow_le_pow_right (by norm_num) hn
      _ = 32768 := by norm_num
  have hpos : 0 < 2 ^ n := by positivity
  have hb : toUInt32 (((1 <<< (n : Int).toNat : Nat) : Int)) = 2 ^ n := by
    rw [Int.toNat_ofNat, Nat.one_shiftLeft, toUInt32_natCast _ (by omega)]
  have hc : toUInt32 (if (((1 <<< (n : Int).toNat : Nat) : Int) >>> (1 : Nat)) - 1 < 0 then 0
      else (((1 <<< (n : Int).toNat : Nat) : Int) >>> (1 : Nat)) - 1) = 2 ^ n / 2 - 1 := by
    rw [Int.toNat_ofNat, Nat.one_shiftLeft, Int_shiftRight_one]
    unfold toUInt32
    split_ifs <;> omega
  have hm : toUInt32 p.max_allowed_pixel_value = p.max_allowed_pixel_value.toNat := by
    unfold toUInt32
    omega
  refine ⟨?_, ?_, ?_, ?_, ?_⟩
  · simp only [blockParameters, ha]
  · simp only [blockParameters, hb]
  · simp only [blockParameters, hc]
  · simp only [blockParameters, hc, hm, ha, Nat.shiftRight_eq_div_pow]
    have h1 : 2 * (2 ^ n / 2 - 1) + p.max_allowed_pixel_value.toNat < 4294967296 := by omega
    have h2 : (2 * (2 ^ n / 2 - 1) + p.max_allowed_pixel_value.toNat) / 2 ^ n ≤
        2 * (2 ^ n / 2 - 1) + p.max_allowed_pixel_value.toNat := Nat.div_le_self _ _
    rw [Nat.mod_eq_of_lt h1, Nat.mod_eq_of_lt (by omega)]
  · simp only [blockParameters, ha]

/-- Claim C20, counterexample: for `bitdepth_diff = 1` and `max_allowed_pixel_value = 4` the
parameters are `b = 2`, `c = 0`, `d = 3`; the value `-1` lies within one period `b * d = 6`
below the window `[0, 4]`, and `_unmodValue(-1, d, 4, c, b)` returns `-1 + 6 = 5`, outside the
window. -/
theorem unmodValue_leaves_window :
    ((blockParameters paramsSmallMax 1).b, (blockParameters paramsSmallMax 1).c,
      (blockParameters paramsSmallMax 1).d) = (2, 0, 3) ∧
    (-(0 : Int) - 2 * 3 ≤ -1 ∧ (-1 : Int) ≤ paramsSmallMax.max_allowed_pixel_value + 0 + 2 * 3) ∧
    unmodValue (-1) (toInt32 (blockParameters paramsSmallMax 1).d)
      paramsSmallMax.max_allowed_pixel_value (toInt32 (blockParameters paramsSmallMax 1).c)
      (toInt32 (blockParameters paramsSmallMax 1).b) = 5 ∧
    ¬ (unmodValue (-1) (toInt32 (blockParameters paramsSmallMax 1).d)
      paramsSmallMax.max_allowed_pixel_value (toInt32 (blockParameters paramsSmallMax 1).c)
      (toInt32 (blockParameters paramsSmallMax 1).b) ≤
        paramsSmallMax.max_allowed_pixel_value + (blockParameters paramsSmallMax 1).c) := by
  decide

/-- The period `b * d` of the block parameters exceeds the width `M + 2 * c` of the window
by at least 1 and at most `b`; the three parameters are unchanged by the conversion to `int`. -/
theorem blockParameters_period (p : Parameters) (n : Nat) (hn : n ≤ 15)
    (hM0 : 0 ≤ p.max_allowed_pixel_value) (hM : p.max_allowed_pixel_value < 2147483647) :
    toInt32 (blockParameters p n).b = (blockParameters p n).b ∧
    toInt32 (blockParameters p n).c = (blockParameters p n).c ∧
    toInt32 (blockParameters p n).d = (blockParameters p n).d ∧
    1 ≤ (blockParameters p n).b ∧
    (n = 0 → (blockParameters p n).b = 1) ∧
    p.max_allowed_pixel_value + 2 * ((blockParameters p n).c : Int) <
      ((blockParameters p n).b : Int) * (blockParameters p n).d ∧
    ((blockParameters p n).b : Int) * (blockParameters p n).d ≤
      p.max_allowed_pixel_value + 2 * ((blockParameters p n).c : Int) +
        (blockParameters p n).b := by
  obtain ⟨_, hb, hc, hd, _⟩ := blockParameters_values p n hn hM0 (by omega)
  have hpow : 2 ^ n ≤ 32768 := by
    calc 2 ^ n ≤ 2 ^ 15 := Nat.pow_le_pow_right (by norm_num) hn
      _ = 32768 := by norm_num
  have hpos : 0 < 2 ^ n := by positivity
  rw [hb, hc, hd]
  have hc0 : n = 0 → 2 ^ n / 2 - 1 = 0 := by
    intro h
    subst h
    norm_num
  generalize hC : 2 ^ n / 2 - 1 = C at *
  have hCle : C ≤ 16383 := by omega
  generalize hx : 2 * C + p.max_allowed_pixel_value.toNat = x
  have hxM : (x : Int) = p.max_allowed_pixel_value + 2 * (C : Int) := by
    rw [← hx]
    push_cast
    omega
  have hmod := Nat.div_add_mod x (2 ^ n)
  have hr : x % 2 ^ n < 2 ^ n := Nat.mod_lt x hpos
  have hq : x / 2 ^ n + 1 < 2147483648 := by
    rcases Nat.eq_zero_or_pos n with h | h
    · subst h
      have := hc0 rfl
      simp only [pow_zero, Nat.div_one]
      omega
    · have h2 : 2 ^ 1 ≤ 2 ^ n := Nat.pow_le_pow_right (by norm_num) h
      have h3 : x / 2 ^ n ≤ x / 2 := Nat.div_le_div_left (by simpa using h2) (by norm_num)
      omega
  generalize hqd : x / 2 ^ n = q at *
  have hmul : ((2 ^ n : Nat) : Int) * ((q + 1 : Nat) : Int) =
      ((2 ^ n * q : Nat) : Int) + ((2 ^ n : Nat) : Int) := by
    push_cast
    ring
  generalize 2 ^ n * q = k at hmod hmul
  have hB0 : n = 0 → 2 ^ n = 1 := by
    intro h
    subst h
    norm_num
  generalize 2 ^ n = B at *
  refine ⟨toInt32_of_lt _ (by omega) (by omega), toInt32_of_lt _ (by omega) (by omega),
    toInt32_of_lt _ (by omega) (by omega), by omega, hB0, ?_, ?_⟩
  · rw [hmul]
    omega
  · rw [hmul]
    omega

/-- Claim C20 (amended): for the block parameters `(b, c, d)` derived from any
`bitdepth_diff` in `[0, 15]` and any `max_allowed_pixel_value` `M ≥ 0`, and for every value
`v` outside the window `[-c, M + c]` by at most one period `b * d`, the call
`_unmodValue(v, d, M, c, b)` returns a value inside `[-c - (b - 1), M + c + (b - 1)]`; the
value is inside `[-c, M + c]` when the period equals the width `M + 2 * c + 1` of the window,
which is the case for `bitdepth_diff = 0`. -/
theorem unmodValue_one_period (p : Parameters) (bd : Int) (h0 : 0 ≤ bd) (h15 : bd ≤ 15)
    (hM0 : 0 ≤ p.max_allowed_pixel_value) (hM : p.max_allowed_pixel_value < 2147483647)
    (v : Int)
    (hlo : -((blockParameters p bd).c : Int) -
      ((blockParameters p bd).b : Int) * (blockParameters p bd).d ≤ v)
    (hhi : v ≤ p.max_allowed_pixel_value + ((blockParameters p bd).c : Int) +
      ((blockParameters p bd).b : Int) * (blockParameters p bd).d) :
    (-((blockParameters p bd).c : Int) - (((blockParameters p bd).b : Int) - 1) ≤
        unmodValue v (toInt32 (blockParameters p bd).d) p.max_allowed_pixel_value
          (toInt32 (blockParameters p bd).c) (toInt32 (blockParameters p bd).b) ∧
      unmodValue v (toInt32 (blockParameters p bd).d) p.max_allowed_pixel_value
          (toInt32 (blockParameters p bd).c) (toInt32 (blockParameters p bd).b) ≤
        p.max_allowed_pixel_value + ((blockParameters p bd).c : Int) +
          (((blockParameters p bd).b : Int) - 1)) ∧
    ((((blockParameters p bd).b : Int) * (blockParameters p bd).d =
        p.max_allowed_pixel_value + 2 * ((blockParameters p bd).c : Int) + 1 ∨ bd = 0) →
      -((blockParameters p bd).c : Int) ≤
        unmodValue v (toInt32 (blockParameters p bd).d) p.max_allowed_pixel_value
          (toInt32 (blockParameters p bd).c) (toInt32 (blockParameters p bd).b) ∧
      unmodValue v (toInt32 (blockParameters p bd).d) p.max_allowed_pixel_value
          (toInt32 (blockParameters p bd).c) (toInt32 (blockParameters p bd).b) ≤
        p.max_allowed_pixel_value + ((blockParameters p bd).c : Int)) := by
  obtain ⟨n, rfl⟩ : ∃ n : Nat, bd = n := ⟨bd.toNat, by omega⟩
  have hn : n ≤ 15 := by omega
  obtain ⟨eb, ec, ed, hb1, hb0, hper1, hper2⟩ := blockParameters_period p n hn hM0 hM
  rw [eb, ec, ed]
  unfold unmodValue
  simp only
  generalize ((blockParameters p n).b : Int) * (blockParameters p n).d = k at *
  generalize ((blockParameters p n).c : Int) = c at *
  constructor
  · split_ifs <;> constructor <;> omega
  · intro h
    have hk : k = p.max_allowed_pixel_value + 2 * c + 1 := by
      rcases h with h | h
      · exact h
      · have : n = 0 := by omega
        have := hb0 this
        omega
    split_ifs <;> constructor <;> omega

/-- The test `(_current_line_index & 1) == 0` is the parity test. -/
theorem is_upper_field_line_eq (s : State) :
    is_upper_field_line s = decide (s.current_line_index % 2 = 0) := by
  unfold is_upper_field_line
  rw [Nat.and_one_is_mod]
  by_cases h : s.current_line_index % 2 = 0 <;> simp [h]

/-- The samples that `loadOldValues` puts in `last_old_read_values[0]`. -/
theorem loadOldValues_old (p : Parameters) (i : Nat) (s : State) :
    (loadOldValues p (decide (s.current_line_index > 0)) i s).context_a.last_old_read_values.v0 =
      oldSampleA p s i ∧
    (loadOldValues p (decide (s.current_line_index > 0)) i s).context_b.last_old_read_values.v0 =
      oldSampleB p s i := by
  have hu := is_upper_field_line_eq s
  unfold oldSampleA oldSampleB
  simp only [loadOldValues, hu]
  by_cases h0 : s.current_line_index = 0
  · simp [h0]
  · have hpos : s.current_line_index > 0 := Nat.pos_of_ne_zero h0
    by_cases h2 : s.current_line_index % 2 = 0 <;> simp [h0, hpos, h2]

/-- The decode of a pixel pair keeps the old-line windows. -/
theorem processComponentPair_old (p : Parameters) (s : State) :
    (processComponentPair p s).context_a.last_old_read_values = s.context_a.last_old_read_values ∧
    (processComponentPair p s).context_b.last_old_read_values =
      s.context_b.last_old_read_values := by
  simp only [processComponentPair, and_self]

/-- The read of the two raw values keeps the old-line windows. -/
theorem readRawValues_old (p : Parameters) (s : State) :
    (readRawValues p s).context_a.last_old_read_values = s.context_a.last_old_read_values ∧
    (readRawValues p s).context_b.last_old_read_values = s.context_b.last_old_read_values := by
  simp only [readRawValues, and_self]

/-- The end of a pixel iteration copies `last_old_read_values[0]` to element `[1]`. -/
theorem storePixel_old (p : Parameters) (i : Nat) (s : State) :
    (storePixel p i s).context_a.last_old_read_values.v0 = s.context_a.last_old_read_values.v0 ∧
    (storePixel p i s).context_a.last_old_read_values.v1 = s.context_a.last_old_read_values.v0 ∧
    (storePixel p i s).context_b.last_old_read_values.v0 = s.context_b.last_old_read_values.v0 ∧
    (storePixel p i s).context_b.last_old_read_values.v1 =
      s.context_b.last_old_read_values.v0 := by
  simp only [storePixel, shiftContext, and_self]

/-- Claim C13: for every pixel `i` of every block, in both decoding modes, the old-line
samples loaded before decoding are `default_pix_value` for both components when
`current_line_index = 0`, and when `current_line_index > 0` they are `line_a_prev[block][i]`
for component A and, for component B, `line_b_prev[block][i]` if `current_line_index` is even
and `line_c_prev[block][i]` if it is odd, independently of `bayer_pattern`. Both pixel bodies
start with this load, and the loaded samples are those found in `last_old_read_values[0]`
(and `[1]`) after the pixel. -/
theorem old_line_samples (p : Parameters) (i : Nat) (s : State) :
    (s.current_line_index = 0 → oldSampleA p s i = p.default_pix_value ∧
      oldSampleB p s i = p.default_pix_value) ∧
    (s.current_line_index > 0 →
      oldSampleA p s i = s.line_a_prev.samples s.current_block_index i ∧
      (s.current_line_index % 2 = 0 →
        oldSampleB p s i = s.line_b_prev.samples s.current_block_index i) ∧
      (s.current_line_index % 2 = 1 →
        oldSampleB p s i = s.line_c_prev.samples s.current_block_index i)) ∧
    ((loadOldValues p (decide (s.current_line_index > 0)) i s).context_a.last_old_read_values.v0 =
        oldSampleA p s i ∧
      (loadOldValues p (decide (s.current_line_index > 0)) i s).context_b.last_old_read_values.v0 =
        oldSampleB p s i) ∧
    (variableLengthPixel p (decide (s.current_line_index > 0)) i s =
        storePixel p i
          (processComponentPair p (loadOldValues p (decide (s.current_line_index > 0)) i s)) ∧
      rawPixel p (decide (s.current_line_index > 0)) i s =
        restoreNewB s.context_b.last_new_read_values.v0
          (storePixel p i
            (readRawValues p (loadOldValues p (decide (s.current_line_index > 0)) i s)))) ∧
    ((variableLengthPixel p (decide (s.current_line_index > 0)) i
          s).context_a.last_old_read_values.v0 = oldSampleA p s i ∧
      (variableLengthPixel p (decide (s.current_line_index > 0)) i
          s).context_b.last_old_read_values.v0 = oldSampleB p s i ∧
      (rawPixel p (decide (s.current_line_index > 0)) i s).context_a.last_old_read_values.v0 =
        oldSampleA p s i ∧
      (rawPixel p (decide (s.current_line_index > 0)) i s).context_b.last_old_read_values.v0 =
        oldSampleB p s i) ∧
    (∀ pattern : Nat,
      loadOldValues { p with bayer_pattern := pattern } (decide (s.current_line_index > 0)) i s =
        loadOldValues p (decide (s.current_line_index > 0)) i s) := by
  have hl := loadOldValues_old p i s
  refine ⟨?_, ?_, hl, ⟨rfl, rfl⟩, ?_, fun _ => rfl⟩
  · intro h
    simp [oldSampleA, oldSampleB, h]
  · intro h
    have h0 : s.current_line_index ≠ 0 := Nat.pos_iff_ne_zero.mp h
    refine ⟨by simp [oldSampleA, h0], ?_, ?_⟩
    · intro h2
      simp [oldSampleB, h0, h2]
    · intro h2
      simp [oldSampleB, h0, h2]
  · have hv : ∀ t : State,
        (storePixel p i (processComponentPair p t)).context_a.last_old_read_values.v0 =
          t.context_a.last_old_read_values.v0 ∧
        (storePixel p i (processComponentPair p t)).context_b.last_old_read_values.v0 =
          t.context_b.last_old_read_values.v0 := by
      intro t
      rw [(storePixel_old p i _).1, (storePixel_old p i _).2.2.1,
        (processComponentPair_old p t).1, (processComponentPair_old p t).2]
      exact ⟨rfl, rfl⟩
    have hr : ∀ (old : Int) (t : State),
        (restoreNewB old (storePixel p i (readRawValues p t))).context_a.last_old_read_values.v0 =
          t.context_a.last_old_read_values.v0 ∧
        (restoreNewB old (storePixel p i (readRawValues p t))).context_b.last_old_read_values.v0 =
          t.context_b.last_old_read_values.v0 := by
      intro old t
      have e : ∀ u : State,
          (restoreNewB old u).context_a.last_old_read_values = u.context_a.last_old_read_values ∧
          (restoreNewB old u).context_b.last_old_read_values =
            u.context_b.last_old_read_values := by
        intro u
        simp only [restoreNewB, and_self]
      rw [(e _).1, (e _).2, (storePixel_old p i _).1, (storePixel_old p i _).2.2.1,
        (readRawValues_old p t).1, (readRawValues_old p t).2]
      exact ⟨rfl, rfl⟩
    refine ⟨?_, ?_, ?_, ?_⟩
    · exact ((hv _).1).trans hl.1
    · exact ((hv _).2).trans hl.2
    · exact ((hr _ _).1).trans hl.1
    · exact ((hr _ _).2).trans hl.2

/-- A raw field shifted left by `a` fits in 16 bits when `a ≤ bitdepth_real ≤ 16`: no
conversion of the source changes it. -/
theorem raw_value_exact (p : Parameters) (s : State) (v : Nat)
    (ha : (s.parameters_raw_mode.a : Int) ≤ p.bitdepth_real) (hb : p.bitdepth_real ≤ 16)
    (hv : v < 2 ^ rawFieldWidth p s) :
    toInt32 ((v <<< s.parameters_raw_mode.a % 4294967296 : Nat) : Int) =
      ((v <<< s.parameters_raw_mode.a : Nat) : Int) ∧
    toUInt16 (toInt32 ((v <<< s.parameters_raw_mode.a % 4294967296 : Nat) : Int)) =
      v <<< s.parameters_raw_mode.a := by
  unfold rawFieldWidth at hv
  have hle : s.parameters_raw_mode.a ≤ p.bitdepth_real.toNat := by omega
  have hpow : 2 ^ ((p.bitdepth_real - s.parameters_raw_mode.a).toNat) *
      2 ^ s.parameters_raw_mode.a = 2 ^ p.bitdepth_real.toNat := by
    rw [← pow_add]
    congr 1
    omega
  have hlt : v <<< s.parameters_raw_mode.a < 2 ^ p.bitdepth_real.toNat := by
    rw [Nat.shiftLeft_eq, ← hpow]
    exact Nat.mul_lt_mul_of_pos_right hv (by positivity)
  have h16 : 2 ^ p.bitdepth_real.toNat ≤ 2 ^ 16 :=
    Nat.pow_le_pow_right (by norm_num) (by omega)
  generalize v <<< s.parameters_raw_mode.a = w at hlt ⊢
  generalize 2 ^ p.bitdepth_real.toNat = M at hlt h16 ⊢
  have h16' : M ≤ 65536 := by simpa using h16
  rw [Nat.mod_eq_of_lt (by omega), toInt32_of_lt _ (by omega) (by omega)]
  refine ⟨rfl, ?_⟩
  unfold toUInt16
  omega

/-- The width that `_readNextBlockRawMode` passes to `ReadBits` is `bitdepth_real - a`. -/
theorem rawFieldWidth_eq (p : Parameters) (s : State)
    (ha : (s.parameters_raw_mode.a : Int) ≤ p.bitdepth_real) (hb : p.bitdepth_real ≤ 16) :
    toUInt32 (p.bitdepth_real - s.parameters_raw_mode.a) = rawFieldWidth p s := by
  unfold toUInt32 rawFieldWidth
  omega

/-- Claim C11 (amended): for every pixel of a raw-mode block with block parameter
`a = bitdepth_diff`, provided `a ≤ bitdepth_real` and `bitdepth_real ≤ 16` (so that the field
width is not negative and `val << a` fits a 16-bit sample), the decoder consumes exactly two fields
of `bitdepth_real - a` bits each, `val1` then `val2`, stores `val1 << a` in
`line_a[block][i]` and `val2 << a` in `line_bc[block][i]`, leaves `ctx_b.last_new[0]` equal
to its value before the pixel while `ctx_b.last_new[1]` becomes `val2 << a`, and
`ctx_a.last_new[0] = ctx_a.last_new[1] = val1 << a`. -/
theorem rawPixel_spec (p : Parameters) (isPrev : Bool) (i : Nat) (s : State)
    (ha : (s.parameters_raw_mode.a : Int) ≤ p.bitdepth_real) (hb : p.bitdepth_real ≤ 16) :
    ((rawFieldWidth p s : Int) = p.bitdepth_real - s.parameters_raw_mode.a ∧
      (rawPixel p isPrev i s).reader =
        ((s.reader.ReadBits (rawFieldWidth p s)).2.ReadBits (rawFieldWidth p s)).2 ∧
      (rawPixel p isPrev i s).reader.pos = s.reader.pos + 2 * rawFieldWidth p s) ∧
    ((rawPixel p isPrev i s).line_a.samples s.current_block_index i =
        rawField1 p s <<< s.parameters_raw_mode.a ∧
      (rawPixel p isPrev i s).line_bc.samples s.current_block_index i =
        rawField2 p s <<< s.parameters_raw_mode.a) ∧
    ((rawPixel p isPrev i s).context_b.last_new_read_values.v0 =
        s.context_b.last_new_read_values.v0 ∧
      (rawPixel p isPrev i s).context_b.last_new_read_values.v1 =
        ((rawField2 p s <<< s.parameters_raw_mode.a : Nat) : Int)) ∧
    ((rawPixel p isPrev i s).context_a.last_new_read_values.v0 =
        ((rawField1 p s <<< s.parameters_raw_mode.a : Nat) : Int) ∧
      (rawPixel p isPrev i s).context_a.last_new_read_values.v1 =
        ((rawField1 p s <<< s.parameters_raw_mode.a : Nat) : Int)) ∧
    (∀ t : State, (initBlockParameters p t).parameters_raw_mode.a = toUInt32 t.bitdepth_diff ∧
      (0 ≤ t.bitdepth_diff → t.bitdepth_diff < 4294967296 →
        ((initBlockParameters p t).parameters_raw_mode.a : Int) = t.bitdepth_diff)) := by
  have hw := rawFieldWidth_eq p s ha hb
  have h1 := raw_value_exact p s (rawField1 p s) ha hb (ReadBits_lt _ _)
  have h2 := raw_value_exact p s (rawField2 p s) ha hb (ReadBits_lt _ _)
  unfold rawField1 at h1
  unfold rawField2 at h2
  unfold rawField1 rawField2
  refine ⟨⟨?_, ?_, ?_⟩, ⟨?_, ?_⟩, ⟨?_, ?_⟩, ⟨?_, ?_⟩, ?_⟩
  · unfold rawFieldWidth
    omega
  · simp only [rawPixel, restoreNewB, storePixel, readRawValues, loadOldValues, hw]
  · simp only [rawPixel, restoreNewB, storePixel, readRawValues, loadOldValues, hw,
      BitReader.ReadBits]
    omega
  · simp only [rawPixel, restoreNewB, storePixel, readRawValues, loadOldValues,
      ZRawImageBlockLine.setSample, shiftContext, and_self, if_true, hw]
    exact h1.2
  · simp only [rawPixel, restoreNewB, storePixel, readRawValues, loadOldValues,
      ZRawImageBlockLine.setSample, shiftContext, and_self, if_true, hw]
    exact h2.2
  · simp only [rawPixel, restoreNewB, loadOldValues]
  · simp only [rawPixel, restoreNewB, storePixel, readRawValues, loadOldValues, shiftContext,
      hw]
    exact h2.1
  · simp only [rawPixel, restoreNewB, storePixel, readRawValues, loadOldValues, shiftContext,
      hw]
    exact h1.1
  · simp only [rawPixel, restoreNewB, storePixel, readRawValues, loadOldValues, shiftContext,
      hw]
    exact h1.1
  · intro t
    refine ⟨by simp only [initBlockParameters, blockParameters], ?_⟩
    intro h0 h32
    simp only [initBlockParameters, blockParameters]
    unfold toUInt32
    omega

/-- The function `_readHuffmanValue` is its `switch` applied to the result of its loop. -/
theorem readHuffmanValue_eq_switch (x : Nat) :
    readHuffmanValue x = huffmanSwitch (huffmanScan 9 0 x).1 ((huffmanScan 9 0 x).2 % 4) := by
  have h3 : ∀ d : Nat, d &&& 3 = d % 4 := fun d => Nat.and_pow_two_sub_one_eq_mod d 2
  unfold readHuffmanValue
  generalize huffmanScan 9 0 x = r
  obtain ⟨i, d⟩ := r
  simp only [h3]
  rcases Nat.lt_or_ge i 9 with hi | hi
  · interval_cases i <;> simp [huffmanSwitch]
  · obtain ⟨k, rfl⟩ : ∃ k, i = k + 9 := ⟨i - 9, by omega⟩
    show ((9 : Nat), (9 : Nat)) = huffmanSwitch (k + 9) (d % 4)
    simp [huffmanSwitch]

/-- The loop of `_readHuffmanValue` with `fuel` iterations left depends on the `fuel`
lowest bits only: two words that agree on them give the same count, and the same two bits
at the first `1` when these are among the agreeing bits. -/
theorem huffmanScan_congr : ∀ (fuel i x y : Nat), x % 2 ^ fuel = y % 2 ^ fuel →
    (huffmanScan fuel i x).1 = (huffmanScan fuel i y).1 ∧
    ((huffmanScan fuel i x).1 + 2 ≤ i + fuel →
      (huffmanScan fuel i x).2 % 4 = (huffmanScan fuel i y).2 % 4) := by
  intro fuel
  induction fuel with
  | zero =>
    intro i x y _
    simp only [huffmanScan, true_and]
    omega
  | succ fuel ih =>
    intro i x y h
    have h2 : x % 2 = y % 2 := by
      have := congrArg (· % 2) h
      simpa [Nat.mod_mod_of_dvd _ (dvd_pow_self 2 (Nat.succ_ne_zero fuel))] using this
    have hhalf : (x >>> 1) % 2 ^ fuel = (y >>> 1) % 2 ^ fuel := by
      simp only [Nat.shiftRight_eq_div_pow, pow_one]
      rw [← Nat.mod_mul_right_div_self, ← Nat.mod_mul_right_div_self, ← pow_succ', h]
    simp only [huffmanScan, Nat.and_one_is_mod]
    by_cases hx : x % 2 = 0
    · have hy : y % 2 = 0 := by omega
      simp only [hx, hy, ne_eq, not_true_eq_false, if_false]
      have := ih (i + 1) (x >>> 1) (y >>> 1) hhalf
      refine ⟨this.1, fun hle => this.2 (by omega)⟩
    · have hy : ¬ (y % 2 = 0) := by omega
      simp only [hx, hy, ne_eq, not_false_eq_true, if_true, true_and]
      intro hle
      have hf : 1 ≤ fuel := by omega
      have hd : 4 ∣ 2 ^ (fuel + 1) := by
        have : (4 : Nat) = 2 ^ 2 := by norm_num
        rw [this]
        exact pow_dvd_pow 2 (by omega)
      have := congrArg (· % 4) h
      simpa [Nat.mod_mod_of_dvd _ hd] using this

/-- The loop of `_readHuffmanValue` stops with a count of at most 9. -/
theorem huffmanScan_le : ∀ (fuel i x : Nat), (huffmanScan fuel i x).1 ≤ i + fuel := by
  intro fuel
  induction fuel with
  | zero => intro i x; simp [huffmanScan]
  | succ fuel ih =>
    intro i x
    simp only [huffmanScan]
    split_ifs
    · simp
    · have := ih (i + 1) (x >>> 1)
      omega

/-- The function `_readHuffmanValue` depends on the 9 lowest bits of its argument only. -/
theorem readHuffmanValue_congr (x y : Nat) (h : x % 512 = y % 512) :
    readHuffmanValue x = readHuffmanValue y := by
  have hs := huffmanScan_congr 9 0 x y (by simpa using h)
  have hle := huffmanScan_le 9 0 x
  rw [readHuffmanValue_eq_switch, readHuffmanValue_eq_switch, ← hs.1]
  by_cases h7 : (huffmanScan 9 0 x).1 + 2 ≤ 0 + 9
  · rw [← hs.2 h7]
  · have : (huffmanScan 9 0 x).1 = 8 ∨ (huffmanScan 9 0 x).1 = 9 := by omega
    rcases this with e | e <;> simp [huffmanSwitch, e]

/-- The truncation of the peeked word to 32 bits does not change the prefix decode. -/
theorem readHuffmanValue_mod32 (x : Nat) :
    readHuffmanValue (x % 4294967296) = readHuffmanValue x := by
  apply readHuffmanValue_congr
  exact Nat.mod_mod_of_dvd x (by norm_num)

/-- The class that `_readHuffmanValue` returns is at most 12 and its size is between 1
and 9. -/
theorem readHuffmanValue_range (x : Nat) :
    (readHuffmanValue x).1 ≤ 12 ∧ 1 ≤ (readHuffmanValue x).2 ∧ (readHuffmanValue x).2 ≤ 9 := by
  rw [readHuffmanValue_eq_switch]
  unfold huffmanSwitch
  split_ifs <;> simp

/-- The result of `_getValueBitSizeMinus1_ButMax6` is at most 6. -/
theorem getValueBitSizeMinus1_ButMax6_le (x : Int) : getValueBitSizeMinus1_ButMax6 x ≤ 6 := by
  simp only [getValueBitSizeMinus1_ButMax6, bitSizeScan]
  split_ifs <;> omega

/-- The conversion of `f` to `int` and back to `uint32_t` gives `f`. -/
theorem lsbSize_eq (f : Nat) (hf : f < 2147483648) (msb a : Nat) (ha : a ≤ 6) :
    lsbSize msb (toInt32 f) a = if msb = 12 then f else a := by
  unfold lsbSize
  split_ifs
  · rw [toInt32_of_lt _ (by omega) (by omega), toUInt32_natCast _ (by omega)]
  · rw [toUInt32_natCast _ (by omega)]

/-- The block of `_processComponentPair` that reads least significant bits takes the
`w` lowest bits of `data` and shifts `data` by `w`, for every width `w ≤ 32`. -/
theorem readLsb_eq (data w : Nat) (hw : w ≤ 32) :
    readLsb data w = (data % 2 ^ w, data >>> w) := by
  unfold readLsb
  rcases Nat.eq_zero_or_pos w with h | h
  · subst h
    simp [Nat.mod_one]
  · have h64 : (18446744073709551616 : Nat) = 2 ^ w * 2 ^ (64 - w) := by
      rw [← pow_add]
      have : w + (64 - w) = 64 := by omega
      rw [this]
      norm_num
    have hlt : data % 2 ^ w < 4294967296 := by
      have h1 : data % 2 ^ w < 2 ^ w := Nat.mod_lt _ (by positivity)
      have h2 : 2 ^ w ≤ 2 ^ 32 := Nat.pow_le_pow_right (by norm_num) hw
      have h3 : (2 : Nat) ^ 32 = 4294967296 := by norm_num
      omega
    rw [if_pos h, Nat.shiftLeft_eq, h64, Nat.mul_mod_mul_right, Nat.shiftRight_eq_div_pow,
      Nat.mul_div_cancel _ (by positivity), Nat.mod_eq_of_lt hlt]

/-- The bit parsing of `_processComponentPair` follows the layout of the specification,
when the escape width `f` is at most 32. -/
theorem parsePair_eq_layout (f : Nat) (hf : f ≤ 32) (ga gb : Int) (data : Nat) :
    parsePair (toInt32 f) (getValueBitSizeMinus1_ButMax6 ga) (getValueBitSizeMinus1_ButMax6 gb)
        data =
      ((specLayout f ga gb data).msb_a, (specLayout f ga gb data).sa,
        (specLayout f ga gb data).msb_b, (specLayout f ga gb data).sb,
        (specLayout f ga gb data).lsb_a_size, (specLayout f ga gb data).lsb_a,
        (specLayout f ga gb data).lsb_b_size, (specLayout f ga gb data).lsb_b) := by
  have ha := getValueBitSizeMinus1_ButMax6_le ga
  have hb := getValueBitSizeMinus1_ButMax6_le gb
  have hwa : ∀ msb, lsbSize msb (toInt32 f) (getValueBitSizeMinus1_ButMax6 ga) =
      specLsbSize f ga msb := fun msb => lsbSize_eq f (by omega) msb _ ha
  have hwb : ∀ msb, lsbSize msb (toInt32 f) (getValueBitSizeMinus1_ButMax6 gb) =
      specLsbSize f gb msb := fun msb => lsbSize_eq f (by omega) msb _ hb
  have hle : ∀ (g : Int) (msb : Nat), specLsbSize f g msb ≤ 32 := by
    intro g msb
    have := getValueBitSizeMinus1_ButMax6_le g
    unfold specLsbSize
    split_ifs <;> omega
  simp only [parsePair, specLayout, readHuffmanValue_mod32, hwa, hwb,
    readLsb_eq _ _ (hle _ _), Nat.shiftRight_add]

/-- The widths and fields of a layout are bounded: the prefixes by 9 bits, the classes by
12, the widths by `max f 6`, and each field of least significant bits by its width. -/
theorem specLayout_bounds (f : Nat) (ga gb : Int) (data : Nat) :
    ((specLayout f ga gb data).msb_a ≤ 12 ∧ (specLayout f ga gb data).sa ≤ 9 ∧
      (specLayout f ga gb data).msb_b ≤ 12 ∧ (specLayout f ga gb data).sb ≤ 9) ∧
    ((specLayout f ga gb data).lsb_a_size ≤ max f 6 ∧
      (specLayout f ga gb data).lsb_b_size ≤ max f 6) ∧
    ((specLayout f ga gb data).msb_a ≠ 12 → (specLayout f ga gb data).lsb_a_size ≤ 6) ∧
    ((specLayout f ga gb data).msb_b ≠ 12 → (specLayout f ga gb data).lsb_b_size ≤ 6) ∧
    (specLayout f ga gb data).lsb_a < 2 ^ (specLayout f ga gb data).lsb_a_size ∧
    (specLayout f ga gb data).lsb_b < 2 ^ (specLayout f ga gb data).lsb_b_size := by
  have h1 := readHuffmanValue_range data
  have h2 := readHuffmanValue_range (data >>> (readHuffmanValue data).2)
  have ha := getValueBitSizeMinus1_ButMax6_le ga
  have hb := getValueBitSizeMinus1_ButMax6_le gb
  simp only [specLayout, specLsbSize]
  refine ⟨⟨h1.1, h1.2.2, h2.1, h2.2.2⟩, ⟨?_, ?_⟩, ?_, ?_, Nat.mod_lt _ (by positivity),
    Nat.mod_lt _ (by positivity)⟩
  · split_ifs <;> omega
  · split_ifs <;> omega
  · intro h
    rw [if_neg h]
    exact ha
  · intro h
    rw [if_neg h]
    exact hb

/-- The `w` bits from position `k` of a word are those of its `n` lowest bits, when
`k + w ≤ n`. -/
theorem shiftRight_mod_two_pow (x n k w : Nat) (h : k + w ≤ n) :
    ((x % 2 ^ n) >>> k) % 2 ^ w = (x >>> k) % 2 ^ w := by
  have hn : 2 ^ n = 2 ^ k * 2 ^ (n - k) := by
    rw [← pow_add]
    congr 1
    omega
  have hd : 2 ^ w ∣ 2 ^ (n - k) := pow_dvd_pow 2 (by omega)
  rw [Nat.shiftRight_eq_div_pow, Nat.shiftRight_eq_div_pow, hn, Nat.mod_mul_right_div_self,
    Nat.mod_mod_of_dvd _ hd]

/-- The layout of a pixel pair uses no bit of the word beyond the 48 bits peeked, when
the escape width `f` is at most 14. -/
theorem specLayout_low48 (f : Nat) (hf : f ≤ 14) (ga gb : Int) (data : Nat) :
    specLayout f ga gb (data % 2 ^ 48) = specLayout f ga gb data := by
  obtain ⟨⟨_, hsa, _, hsb⟩, ⟨hwa, hwb⟩, _⟩ := specLayout_bounds f ga gb data
  simp only [specLayout] at hsa hsb hwa hwb
  have h512 : (512 : Nat) = 2 ^ 9 := by norm_num
  have h1 : readHuffmanValue (data % 2 ^ 48) = readHuffmanValue data := by
    apply readHuffmanValue_congr
    have := shiftRight_mod_two_pow data 48 0 9 (by omega)
    simpa [h512] using this
  have h2 : readHuffmanValue ((data % 2 ^ 48) >>> (readHuffmanValue data).2) =
      readHuffmanValue (data >>> (readHuffmanValue data).2) := by
    apply readHuffmanValue_congr
    rw [h512]
    exact shiftRight_mod_two_pow data 48 _ 9 (by omega)
  simp only [specLayout, h1, h2]
  rw [shiftRight_mod_two_pow data 48 _ _ (by omega),
    shiftRight_mod_two_pow data 48 _ _ (by omega)]

/-- Claim C15: whenever `0 ≤ bitdepth_real - a ≤ 14` (with `f = bitdepth_real - a`, as
`_initBlockParameters` sets it), for every peeked word and every values of `g` in the two
contexts, the two prefixes consume at most 18 bits together and the total number of bits
that `_processComponentPair` consumes for one pixel pair is at most 48, so every bit it
uses lies inside the 48 bits peeked: the parse of a word is the parse of its 48 lowest
bits; and every bit that the second prefix decode examines survives the truncation of the
peeked word to 32 bits. -/
theorem processComponentPair_within_peek (p : Parameters) (s : State)
    (h0 : 0 ≤ p.bitdepth_real - s.parameters_vl_mode.a)
    (h14 : p.bitdepth_real - s.parameters_vl_mode.a ≤ 14)
    (hfd : s.parameters_vl_mode.f = toUInt32 (p.bitdepth_real - s.parameters_vl_mode.a)) :
    (∀ (ga gb : Int) (data : Nat),
      (specLayout s.parameters_vl_mode.f ga gb data).sa +
        (specLayout s.parameters_vl_mode.f ga gb data).sb ≤ 18 ∧
      (specLayout s.parameters_vl_mode.f ga gb data).bits ≤ 48 ∧
      parsePair (toInt32 s.parameters_vl_mode.f) (getValueBitSizeMinus1_ButMax6 ga)
          (getValueBitSizeMinus1_ButMax6 gb) data =
        ((specLayout s.parameters_vl_mode.f ga gb data).msb_a,
          (specLayout s.parameters_vl_mode.f ga gb data).sa,
          (specLayout s.parameters_vl_mode.f ga gb data).msb_b,
          (specLayout s.parameters_vl_mode.f ga gb data).sb,
          (specLayout s.parameters_vl_mode.f ga gb data).lsb_a_size,
          (specLayout s.parameters_vl_mode.f ga gb data).lsb_a,
          (specLayout s.parameters_vl_mode.f ga gb data).lsb_b_size,
          (specLayout s.parameters_vl_mode.f ga gb data).lsb_b) ∧
      parsePair (toInt32 s.parameters_vl_mode.f) (getValueBitSizeMinus1_ButMax6 ga)
          (getValueBitSizeMinus1_ButMax6 gb) (data % 2 ^ 48) =
        parsePair (toInt32 s.parameters_vl_mode.f) (getValueBitSizeMinus1_ButMax6 ga)
          (getValueBitSizeMinus1_ButMax6 gb) data ∧
      readHuffmanValue ((data >>> (readHuffmanValue (data % 4294967296)).2) % 4294967296) =
        readHuffmanValue (data >>> (readHuffmanValue data).2)) ∧
    (processComponentPair p s).reader.pos ≤ s.reader.pos + 48 := by
  have hf : s.parameters_vl_mode.f ≤ 14 := by
    rw [hfd]
    unfold toUInt32
    omega
  have key : ∀ (ga gb : Int) (data : Nat),
      (specLayout s.parameters_vl_mode.f ga gb data).sa +
        (specLayout s.parameters_vl_mode.f ga gb data).sb ≤ 18 ∧
      (specLayout s.parameters_vl_mode.f ga gb data).bits ≤ 48 := by
    intro ga gb data
    obtain ⟨⟨_, hsa, _, hsb⟩, ⟨hwa, hwb⟩, _⟩ :=
      specLayout_bounds s.parameters_vl_mode.f ga gb data
    unfold PairLayout.bits
    omega
  constructor
  · intro ga gb data
    refine ⟨(key ga gb data).1, (key ga gb data).2,
      parsePair_eq_layout _ (by omega) ga gb data, ?_, ?_⟩
    · rw [parsePair_eq_layout _ (by omega), parsePair_eq_layout _ (by omega),
        specLayout_low48 _ hf]
    · rw [readHuffmanValue_mod32, readHuffmanValue_mod32]
  · have hparse := parsePair_eq_layout s.parameters_vl_mode.f (by omega) s.context_a.g
      s.context_b.g (s.reader.ShowBits 48)
    have hk := (key s.context_a.g s.context_b.g (s.reader.ShowBits 48)).2
    unfold PairLayout.bits at hk
    simp only [processComponentPair, hparse, BitReader.FlushBits]
    have hmod := Nat.mod_le
      ((specLayout s.parameters_vl_mode.f s.context_a.g s.context_b.g (s.reader.ShowBits 48)).sa +
        (specLayout s.parameters_vl_mode.f s.context_a.g s.context_b.g (s.reader.ShowBits 48)).sb +
        (specLayout s.parameters_vl_mode.f s.context_a.g s.context_b.g
          (s.reader.ShowBits 48)).lsb_a_size +
        (specLayout s.parameters_vl_mode.f s.context_a.g s.context_b.g
          (s.reader.ShowBits 48)).lsb_b_size) 4294967296
    omega

/-- Claim C11, witness: scenario S2, a raw block with `bitdepth_diff = 4` and
`bitdepth_real = 12`: the fields 171 and 205 of 8 bits give the samples `171 << 4 = 2736` and
`205 << 4 = 3280`, and 16 bits are consumed. -/
theorem rawPixel_spec_witness :
    ((stateRaw12.parameters_raw_mode.a : Int) ≤ paramsRaw12.bitdepth_real ∧
      paramsRaw12.bitdepth_real ≤ 16) ∧
    ((rawPixel paramsRaw12 false 0 stateRaw12).line_a.samples stateRaw12.current_block_index 0 =
        2736 ∧
      (rawPixel paramsRaw12 false 0 stateRaw12).line_bc.samples stateRaw12.current_block_index 0 =
        3280) ∧
    (rawPixel paramsRaw12 false 0 stateRaw12).reader.pos = stateRaw12.reader.pos + 16 :=
  ⟨⟨by decide, by decide⟩,
   ⟨(rawPixel_spec paramsRaw12 false 0 stateRaw12 (by decide) (by decide)).2.1.1.trans
      (by decide),
    (rawPixel_spec paramsRaw12 false 0 stateRaw12 (by decide) (by decide)).2.1.2.trans
      (by decide)⟩,
   (rawPixel_spec paramsRaw12 false 0 stateRaw12 (by decide) (by decide)).1.2.2.trans
     (by decide)⟩

/-- Claim C15, witness: the example variable-length block has `bitdepth_real - a = 12`. -/
theorem processComponentPair_within_peek_witness :
    (0 ≤ paramsSmallRaw.bitdepth_real - stateSmallRawPixel.parameters_vl_mode.a ∧
      paramsSmallRaw.bitdepth_real - stateSmallRawPixel.parameters_vl_mode.a ≤ 14 ∧
      stateSmallRawPixel.parameters_vl_mode.f =
        toUInt32 (paramsSmallRaw.bitdepth_real - stateSmallRawPixel.parameters_vl_mode.a)) ∧
    (processComponentPair paramsSmallRaw stateSmallRawPixel).reader.pos ≤
      stateSmallRawPixel.reader.pos + 48 :=
  ⟨⟨by decide, by decide, by decide⟩,
   (processComponentPair_within_peek paramsSmallRaw stateSmallRawPixel (by decide) (by decide)
     (by decide)).2⟩

/-- Claim C20, witness: `bitdepth_diff = 1`, `max_allowed_pixel_value = 4`, `v = -1`: the
result 5 lies in `[-c - (b - 1), M + c + (b - 1)] = [-1, 5]`. -/
theorem unmodValue_one_period_witness :
    ((0 : Int) ≤ 1 ∧ (1 : Int) ≤ 15 ∧ 0 ≤ paramsSmallMax.max_allowed_pixel_value ∧
      paramsSmallMax.max_allowed_pixel_value < 2147483647 ∧
      -((blockParameters paramsSmallMax 1).c : Int) -
        ((blockParameters paramsSmallMax 1).b : Int) * (blockParameters paramsSmallMax 1).d ≤ -1 ∧
      (-1 : Int) ≤ paramsSmallMax.max_allowed_pixel_value +
        ((blockParameters paramsSmallMax 1).c : Int) +
        ((blockParameters paramsSmallMax 1).b : Int) * (blockParameters paramsSmallMax 1).d) ∧
    (-((blockParameters paramsSmallMax 1).c : Int) -
        (((blockParameters paramsSmallMax 1).b : Int) - 1) ≤
        unmodValue (-1) (toInt32 (blockParameters paramsSmallMax 1).d)
          paramsSmallMax.max_allowed_pixel_value (toInt32 (blockParameters paramsSmallMax 1).c)
          (toInt32 (blockParameters paramsSmallMax 1).b) ∧
      unmodValue (-1) (toInt32 (blockParameters paramsSmallMax 1).d)
          paramsSmallMax.max_allowed_pixel_value (toInt32 (blockParameters paramsSmallMax 1).c)
          (toInt32 (blockParameters paramsSmallMax 1).b) ≤
        paramsSmallMax.max_allowed_pixel_value + ((blockParameters paramsSmallMax 1).c : Int) +
          (((blockParameters paramsSmallMax 1).b : Int) - 1)) :=
  ⟨⟨by decide, by decide, by decide, by decide, by decide, by decide⟩,
   (unmodValue_one_period paramsSmallMax 1 (by decide) (by decide) (by decide) (by decide) (-1)
     (by decide) (by decide)).1⟩

/-- The loop of `_readHuffmanValue` never decreases its counter. -/
theorem huffmanScan_ge : ∀ (fuel i x : Nat), i ≤ (huffmanScan fuel i x).1 := by
  intro fuel
  induction fuel with
  | zero => intro i x; simp [huffmanScan]
  | succ fuel ih =>
    intro i x
    simp only [huffmanScan]
    split_ifs
    · simp
    · have := ih (i + 1) (x >>> 1)
      omega

/-- The loop of `_readHuffmanValue` gives the same count on two words that agree on their
`m` lowest bits, when the loop on the first word stops at a `1` among these bits or
exhausts its fuel within them; the two bits at the first `1` are the same when they are
among the agreeing bits. -/
theorem huffmanScan_agree : ∀ (fuel i x y m : Nat), x % 2 ^ m = y % 2 ^ m →
    ((huffmanScan fuel i x).1 + 1 ≤ i + m ∨ fuel ≤ m) →
    (huffmanScan fuel i y).1 = (huffmanScan fuel i x).1 ∧
    ((huffmanScan fuel i x).1 + 2 ≤ i + m →
      (huffmanScan fuel i y).2 % 4 = (huffmanScan fuel i x).2 % 4) := by
  have h4 : ∀ (x y m : Nat), x % 2 ^ m = y % 2 ^ m → 2 ≤ m → y % 4 = x % 4 := by
    intro x y m h hm
    have hd : 4 ∣ 2 ^ m := by
      have : (4 : Nat) = 2 ^ 2 := by norm_num
      rw [this]
      exact pow_dvd_pow 2 hm
    have := congrArg (· % 4) h
    simp only [Nat.mod_mod_of_dvd _ hd] at this
    exact this.symm
  intro fuel
  induction fuel with
  | zero =>
    intro i x y m h _
    simp only [huffmanScan, true_and]
    intro hm
    exact h4 x y m h (by omega)
  | succ fuel ih =>
    intro i x y m h hc
    have hge := huffmanScan_ge (fuel + 1) i x
    have hm : 1 ≤ m := by omega
    obtain ⟨m', rfl⟩ : ∃ m', m = m' + 1 := ⟨m - 1, by omega⟩
    have h2 : x % 2 = y % 2 := by
      have := congrArg (· % 2) h
      simpa [Nat.mod_mod_of_dvd _ (dvd_pow_self 2 (Nat.succ_ne_zero m'))] using this
    have hhalf : (x >>> 1) % 2 ^ m' = (y >>> 1) % 2 ^ m' := by
      simp only [Nat.shiftRight_eq_div_pow, pow_one]
      rw [← Nat.mod_mul_right_div_self, ← Nat.mod_mul_right_div_self, ← pow_succ', h]
    simp only [huffmanScan, Nat.and_one_is_mod] at hc hge ⊢
    by_cases hx : x % 2 = 0
    · have hy : y % 2 = 0 := by omega
      simp only [hx, hy, ne_eq, not_true_eq_false, if_false] at hc hge ⊢
      have := ih (i + 1) (x >>> 1) (y >>> 1) m' hhalf (by omega)
      exact ⟨this.1, fun hle => this.2 (by omega)⟩
    · have hy : ¬ (y % 2 = 0) := by omega
      simp only [hx, hy, ne_eq, not_false_eq_true, if_true, true_and]
      intro hle
      exact h4 x y (m' + 1) h (by omega)

/-- Claim C21: the prefix code of `_readHuffmanValue` is self-delimiting and complete.
When `_readHuffmanValue x` reports the size `n` and `y` agrees with `x` on its `n` lowest
bits, `_readHuffmanValue y` returns the same class and the same size; and each class
`0..12` is returned for some input. -/
theorem readHuffmanValue_self_delimiting :
    (∀ x y : Nat, x % 2 ^ (readHuffmanValue x).2 = y % 2 ^ (readHuffmanValue x).2 →
      readHuffmanValue y = readHuffmanValue x) ∧
    (∀ c : Nat, c ≤ 12 → ∃ x : Nat, (readHuffmanValue x).1 = c) := by
  constructor
  · intro x y h
    have hle := huffmanScan_le 9 0 x
    rw [readHuffmanValue_eq_switch x] at h
    rw [readHuffmanValue_eq_switch y, readHuffmanValue_eq_switch x]
    generalize hi : (huffmanScan 9 0 x).1 = i at h hle
    have hi9 : i ≤ 9 := by omega
    have hag := huffmanScan_agree 9 0 x y
    rw [hi] at hag
    interval_cases i
    · have := hag 1 (by simpa [huffmanSwitch] using h) (by omega)
      rw [this.1]; simp [huffmanSwitch]
    · have := hag 2 (by simpa [huffmanSwitch] using h) (by omega)
      rw [this.1]; simp [huffmanSwitch]
    · have := hag 3 (by simpa [huffmanSwitch] using h) (by omega)
      rw [this.1]; simp [huffmanSwitch]
    · have := hag 4 (by simpa [huffmanSwitch] using h) (by omega)
      rw [this.1]; simp [huffmanSwitch]
    · have := hag 5 (by simpa [huffmanSwitch] using h) (by omega)
      rw [this.1]; simp [huffmanSwitch]
    · have := hag 7 (by simpa [huffmanSwitch] using h) (by omega)
      rw [this.1, this.2 (by omega)]
    · have := hag 8 (by simpa [huffmanSwitch] using h) (by omega)
      rw [this.1, this.2 (by omega)]
    · have := hag 9 (by simpa [huffmanSwitch] using h) (by omega)
      rw [this.1, this.2 (by omega)]
    · have := hag 9 (by simpa [huffmanSwitch] using h) (by omega)
      rw [this.1]; simp [huffmanSwitch]
    · have := hag 9 (by simpa [huffmanSwitch] using h) (by omega)
      rw [this.1]; simp [huffmanSwitch]
  · intro c hc
    interval_cases c
    · exact ⟨1, by decide⟩
    · exact ⟨2, by decide⟩
    · exact ⟨4, by decide⟩
    · exact ⟨8, by decide⟩
    · exact ⟨16, by decide⟩
    · exact ⟨32, by decide⟩
    · exact ⟨96, by decide⟩
    · exact ⟨64, by decide⟩
    · exact ⟨192, by decide⟩
    · exact ⟨0, by decide⟩
    · exact ⟨256, by decide⟩
    · exact ⟨128, by decide⟩
    · exact ⟨384, by decide⟩

/-- Claim C21, witness: `32` decodes with size 7, and `160 = 32 + 128` agrees with it on
the 7 lowest bits, so both decode to class 5 with size 7. -/
theorem readHuffmanValue_self_delimiting_witness :
    32 % 2 ^ (readHuffmanValue 32).2 = 160 % 2 ^ (readHuffmanValue 32).2 ∧
    readHuffmanValue 160 = readHuffmanValue 32 ∧ readHuffmanValue 32 = (5, 7) :=
  ⟨by decide, readHuffmanValue_self_delimiting.1 32 160 (by decide), by decide⟩

/-- The state that `_processComponentPair` leaves, in terms of the two constructed
values. -/
theorem processComponentPair_eq_values (p : Parameters) (s : State) :
    (processComponentPair p s).context_a.last_new_read_values.v0 =
      pixelValue p s.parameters_vl_mode (complementValue (pairValues s).1)
        (fixPrediction s.context_a.last_new_read_values.v1 s.context_a.last_old_read_values.v0
          s.context_a.last_old_read_values.v1) ∧
    (processComponentPair p s).context_b.last_new_read_values.v0 =
      pixelValue p s.parameters_vl_mode (complementValue (pairValues s).2)
        (fixPrediction s.context_b.last_new_read_values.v1 s.context_b.last_old_read_values.v0
          s.context_b.last_old_read_values.v1) ∧
    (processComponentPair p s).context_a.last_new_read_values.v1 =
      s.context_a.last_new_read_values.v1 ∧
    (processComponentPair p s).context_b.last_new_read_values.v1 =
      s.context_b.last_new_read_values.v1 ∧
    (processComponentPair p s).context_a.last_old_read_values =
      s.context_a.last_old_read_values ∧
    (processComponentPair p s).context_b.last_old_read_values =
      s.context_b.last_old_read_values ∧
    (processComponentPair p s).noise_less_than_distance_count =
      s.noise_less_than_distance_count ∧
    (processComponentPair p s).current_block_index = s.current_block_index :=
  ⟨rfl, rfl, rfl, rfl, rfl, rfl, rfl, rfl⟩

/-- A zero residual on a zero prediction reconstructs the pixel 0 when the block
parameter `c` is 0. -/
theorem pixelValue_zero (p : Parameters) (bp : BlockParameters) (hc : bp.c = 0)
    (hM : 0 ≤ p.max_allowed_pixel_value) :
    pixelValue p bp (complementValue 0) (fixPrediction 0 0 0) = 0 := by
  have h1 : complementValue 0 = 0 := by decide
  have h2 : fixPrediction 0 0 0 = 0 := by decide
  have h3 : toUInt32 0 = 0 := by decide
  have h4 : toInt32 ((0 : Nat) : Int) = 0 := by decide
  rw [h1, h2]
  unfold pixelValue
  simp only [mul_zero, add_zero, h3, hc, h4]
  unfold unmodValue roundValue
  simp only
  split_ifs <;> omega

/-- A pixel of the variable-length mode on the first line whose two constructed values
are 0, decoded in zero contexts: the contexts stay zero, the two samples written are 0 and
the pixel is counted as quiet. -/
theorem variableLengthPixel_zero (p : Parameters) (hd : p.default_pix_value = 0)
    (hM : 0 ≤ p.max_allowed_pixel_value) (hn : 1 ≤ p.noise_level_distance)
    (hn2 : p.noise_level_distance < 2147483648) (i : Nat) (s : State)
    (hc : s.parameters_vl_mode.c = 0) (ha : ZeroContext s.context_a)
    (hb : ZeroContext s.context_b) (hv : pairValues s = (0, 0)) :
    ZeroContext (variableLengthPixel p false i s).context_a ∧
    ZeroContext (variableLengthPixel p false i s).context_b ∧
    (variableLengthPixel p false i s).noise_less_than_distance_count =
      s.noise_less_than_distance_count + 1 ∧
    (variableLengthPixel p false i s).line_a.samples s.current_block_index i = 0 ∧
    (variableLengthPixel p false i s).line_bc.samples s.current_block_index i = 0 := by
  have hv1 : pairValues (loadOldValues p false i s) = (0, 0) := hv
  have hpc := processComponentPair_eq_values p (loadOldValues p false i s)
  rw [hv1] at hpc
  obtain ⟨ha0, ha1, ha2, ha3⟩ := ha
  obtain ⟨hb0, hb1, hb2, hb3⟩ := hb
  have hoa0 : (loadOldValues p false i s).context_a.last_old_read_values.v0 = 0 := by
    simp [loadOldValues, hd]
  have hob0 : (loadOldValues p false i s).context_b.last_old_read_values.v0 = 0 := by
    simp [loadOldValues, hd]
  have hoa1 : (loadOldValues p false i s).context_a.last_old_read_values.v1 = 0 := ha3
  have hob1 : (loadOldValues p false i s).context_b.last_old_read_values.v1 = 0 := hb3
  have hna1 : (loadOldValues p false i s).context_a.last_new_read_values.v1 = 0 := ha1
  have hnb1 : (loadOldValues p false i s).context_b.last_new_read_values.v1 = 0 := hb1
  have hcc : (loadOldValues p false i s).parameters_vl_mode.c = 0 := hc
  have hz := pixelValue_zero p (loadOldValues p false i s).parameters_vl_mode hcc hM
  obtain ⟨e1, e2, e3, e4, e5, e6, e7, e8⟩ := hpc
  rw [hna1, hoa0, hoa1] at e1
  rw [hnb1, hob0, hob1] at e2
  simp only [] at e1 e2
  rw [hz] at e1 e2
  rw [hna1] at e3
  rw [hnb1] at e4
  have hdist : toInt32 (p.noise_level_distance : Int) = p.noise_level_distance :=
    toInt32_of_lt _ (by omega) (by omega)
  unfold variableLengthPixel
  generalize processComponentPair p (loadOldValues p false i s) = t at e1 e2 e3 e4 e5 e6 e7 e8 ⊢
  have hA0 : t.context_a.last_old_read_values.v0 = 0 := by rw [e5]; exact hoa0
  have hA1 : t.context_a.last_old_read_values.v1 = 0 := by rw [e5]; exact hoa1
  have hB0 : t.context_b.last_old_read_values.v0 = 0 := by rw [e6]; exact hob0
  have hs := storePixel_samples p i t
  rw [e8, e1, e2] at hs
  have h16 : toUInt16 0 = 0 := by decide
  have hpos : (0 : Int) < (p.noise_level_distance : Int) := by omega
  refine ⟨?_, ?_, ?_, ?_, ?_⟩
  · simp [ZeroContext, storePixel, shiftContext, e1, hA0]
  · simp [ZeroContext, storePixel, shiftContext, e2, hB0]
  · simp [storePixel, collectNoiseLevelStatistics, e1, e3, hA0, hA1, hdist, e7, hpos]
    rfl
  · exact hs.1.trans h16
  · exact hs.2.trans h16

/-- The pixel loop of the variable-length mode on the first line, when each pair decoded
has the values 0: all samples written are 0 and each pixel is counted as quiet. -/
theorem pixelLoop_zero (p : Parameters) (hd : p.default_pix_value = 0)
    (hM : 0 ≤ p.max_allowed_pixel_value) (hn : 1 ≤ p.noise_level_distance)
    (hn2 : p.noise_level_distance < 2147483648) :
    ∀ (n i0 : Nat) (s : State), s.parameters_vl_mode.c = 0 → ZeroContext s.context_a →
      ZeroContext s.context_b → (s.read_values_count : Int) + n ≤ p.max_values_count →
      (∀ k, k < n → pairValues (pixelLoop p (variableLengthPixel p false) k i0 s) = (0, 0)) →
      (pixelLoop p (variableLengthPixel p false) n i0 s).noise_less_than_distance_count =
        s.noise_less_than_distance_count + n ∧
      ∀ j, i0 ≤ j → j < i0 + n →
        (pixelLoop p (variableLengthPixel p false) n i0 s).line_a.samples
          s.current_block_index j = 0 ∧
        (pixelLoop p (variableLengthPixel p false) n i0 s).line_bc.samples
          s.current_block_index j = 0 := by
  intro n
  induction n with
  | zero =>
    intro i0 s _ _ _ _ _
    refine ⟨by simp [pixelLoop], ?_⟩
    intro j h1 h2
    omega
  | succ n ih =>
    intro i0 s hc ha hb hr hz
    have hg : (s.read_values_count : Int) < p.max_values_count := by push_cast at hr; omega
    have hstep := variableLengthPixel_zero p hd hM hn hn2 i0 s hc ha hb
      (by simpa [pixelLoop] using hz 0 (by omega))
    have hfr := variableLengthPixel_frame p false i0 s
    simp only [SameBlockFrame] at hfr
    have hrv : (variableLengthPixel p false i0 s).read_values_count = s.read_values_count := by
      simp [variableLengthPixel, storePixel, processComponentPair, loadOldValues]
    obtain ⟨s1, hs1⟩ : ∃ s1 : State, s1 = { variableLengthPixel p false i0 s with
        read_values_count := (variableLengthPixel p false i0 s).read_values_count + 1 } :=
      ⟨_, rfl⟩
    have hloop : ∀ k, pixelLoop p (variableLengthPixel p false) (k + 1) i0 s =
        pixelLoop p (variableLengthPixel p false) k (i0 + 1) s1 := by
      intro k
      rw [hs1]
      simp only [pixelLoop, hg, if_true]
    have q1 : s1.parameters_vl_mode.c = 0 := by
      rw [hs1, ← hc]; exact congrArg BlockParameters.c hfr.2.2.2.2.2.2.2.1
    have q2 : ZeroContext s1.context_a := by rw [hs1]; exact hstep.1
    have q3 : ZeroContext s1.context_b := by rw [hs1]; exact hstep.2.1
    have q4 : (s1.read_values_count : Int) + n ≤ p.max_values_count := by
      rw [hs1]; simp only [hrv]; push_cast at hr ⊢; omega
    have q5 : s1.current_block_index = s.current_block_index := by rw [hs1]; exact hfr.1
    have q6 : s1.noise_less_than_distance_count = s.noise_less_than_distance_count + 1 := by
      rw [hs1]; exact hstep.2.2.1
    have q7 : s1.line_a.samples s.current_block_index i0 = 0 ∧
        s1.line_bc.samples s.current_block_index i0 = 0 := by
      rw [hs1]; exact ⟨hstep.2.2.2.1, hstep.2.2.2.2⟩
    have hz1 : ∀ k, k < n →
        pairValues (pixelLoop p (variableLengthPixel p false) k (i0 + 1) s1) = (0, 0) := by
      intro k hk
      rw [← hloop]
      exact hz (k + 1) (by omega)
    have hih := ih (i0 + 1) s1 q1 q2 q3 q4 hz1
    have hkeep := pixelLoop_keeps_samples p (variableLengthPixel p false)
      (variableLengthPixel_frame p false)
      (fun i s b j h => (pixel_keeps_other_samples p false i s b j h).1) n (i0 + 1) s1
      s.current_block_index i0 (Or.inr (by omega))
    rw [hloop]
    rw [q5] at hih
    refine ⟨?_, ?_⟩
    · rw [hih.1, q6]
      omega
    · intro j h1 h2
      rcases Nat.eq_or_lt_of_le h1 with e | hlt
      · subst e
        rw [hkeep.1, hkeep.2]
        exact q7
      · exact hih.2 j (by omega) (by omega)

/-- The block start keeps the decoding contexts and the count of quiet pixels, and derives
the block parameters from the `_bitdepth_diff` read by the header. -/
theorem blockStart_contexts (p : Parameters) (s : State) :
    (blockStart p s).context_a = s.context_a ∧
    (blockStart p s).context_b = s.context_b ∧
    (blockStart p s).noise_less_than_distance_count = s.noise_less_than_distance_count ∧
    (blockStart p s).parameters_vl_mode =
      blockParameters p (readBlockHeader p s).bitdepth_diff := by
  unfold blockStart initBlockParameters readBlockHeader readDecodingMode
  simp only
  split_ifs <;> refine ⟨?_, ?_, ?_, ?_⟩ <;> first | rfl | trivial

/-- The block parameter `c` is 0 for `_bitdepth_diff = 0`. -/
theorem blockParameters_zero_c (p : Parameters) : (blockParameters p 0).c = 0 := by
  have h : toUInt32 (if ((((1 <<< (0 : Int).toNat : Nat) : Int) >>> (1 : Nat)) - 1) < 0 then 0
      else ((((1 <<< (0 : Int).toNat : Nat) : Int) >>> (1 : Nat)) - 1)) = 0 := by decide
  exact h

/-- The decode of a block in variable-length mode on the first line, stopped after at
most `k` pixels, is the pixel loop started in the state left by the block start. -/
theorem decodeBlockUpTo_first_line (p : Parameters) (s : State)
    (hline : s.current_line_index = 0) (hmode : (readBlockHeader p s).decoding_mode = 0)
    (k : Nat) :
    decodeBlockUpTo p k s = pixelLoop p (variableLengthPixel p false) k 0 (blockStart p s) := by
  have hf := blockStart_fields p s
  have hm : ¬ ((blockStart p s).decoding_mode = RAW_MODE) := by
    rw [hf.1, hmode]
    decide
  have hl : (blockStart p s).current_line_index = 0 := by rw [hf.2.1, hline]
  unfold decodeBlockUpTo readNextBlockVariableLengthMode
  simp only [hm, if_false, hl]
  rfl

/-- Claim C12 (amended): a lossless decoder on its first line with `default_pix_value = 0`,
`max_allowed_pixel_value ≥ 0`, `1 ≤ noise_level_distance ≤ 2^31 - 1` and one block of `B`
samples in variable-length mode: when the two values constructed for each pixel pair are
0, `ReadLine` returns, each sample of line A and of line B is 0 and
`noise_less_than_distance_count` is `B`. -/
theorem ReadLine_zero_line (p : Parameters) (B : Nat) (reader : BitReader)
    (hl : p.lossless = true) (hd : p.default_pix_value = 0)
    (hM : 0 ≤ p.max_allowed_pixel_value) (hn : 1 ≤ p.noise_level_distance)
    (hn2 : p.noise_level_distance < 2147483648) (hB : p.max_values_count = B)
    (hbc : p.blocks_count = 1)
    (hmode : (readBlockHeader p (State.init p reader)).decoding_mode = 0)
    (hz : ∀ k, k < B → pairValues (decodeBlockUpTo p k (State.init p reader)) = (0, 0))
    (fuel : Nat) (hfuel : 1 < fuel) :
    (ReadLine p B fuel (State.init p reader)).map
        (fun t => t.noise_less_than_distance_count) = some B ∧
    ∀ i, i < B →
      (ReadLine p B fuel (State.init p reader)).map
        (fun t => (t.line_a.samples 0 i, t.line_bc.samples 0 i)) = some (0, 0) := by
  have hline : (State.init p reader).current_line_index = 0 := rfl
  have hcbi : (State.init p reader).current_block_index = 0 := rfl
  have hrl := ReadLine_eq_iterate p B 1 (State.init p reader) (by rw [hbc, hcbi]; rfl) fuel hfuel
  have hdec := decodeBlockUpTo_first_line p (State.init p reader) hline hmode
  have hbs := blockStart_contexts p (State.init p reader)
  have hf := blockStart_fields p (State.init p reader)
  have hbd : (readBlockHeader p (State.init p reader)).bitdepth_diff = 0 :=
    (readBlockHeader_bitdepth_diff_range p (State.init p reader)).1 hl
  have hza : ZeroContext (State.init p reader).context_a := by
    simp [ZeroContext, State.init, reinitializeContexts, hd]
  have hzb : ZeroContext (State.init p reader).context_b := by
    simp [ZeroContext, State.init, reinitializeContexts, hd]
  have hloop := pixelLoop_zero p hd hM hn hn2 B 0 (blockStart p (State.init p reader))
    (by rw [hbs.2.2.2, hbd]; exact blockParameters_zero_c p)
    (by rw [hbs.1]; exact hza) (by rw [hbs.2.1]; exact hzb)
    (by rw [hf.2.2.2.2.1, hB]; simp [State.init, reinitializeContexts])
    (fun k hk => by rw [← hdec]; exact hz k hk)
  rw [← hdec, hbs.2.2.1, hf.2.2.1, hcbi] at hloop
  have hcount : (State.init p reader).noise_less_than_distance_count = 0 := rfl
  rw [hcount, Nat.zero_add] at hloop
  have hrb : (readBlock p B (State.init p reader)).noise_less_than_distance_count =
        (decodeBlockUpTo p B (State.init p reader)).noise_less_than_distance_count ∧
      (readBlock p B (State.init p reader)).line_a =
        (decodeBlockUpTo p B (State.init p reader)).line_a ∧
      (readBlock p B (State.init p reader)).line_bc =
        (decodeBlockUpTo p B (State.init p reader)).line_bc := by
    unfold readBlock alignLastBlock
    simp only
    split_ifs <;> exact ⟨rfl, rfl, rfl⟩
  rw [hrl]
  simp only [Function.iterate_succ, Function.iterate_zero, Function.comp_apply, id_eq,
    Option.map_some', Option.some.injEq, hrb.1, hrb.2.1, hrb.2.2, Prod.mk.injEq]
  exact ⟨hloop.1, fun i hi => hloop.2 i (Nat.zero_le i) (by omega)⟩

set_option maxRecDepth 1000000 in
/-- Claim C12, witness: scenario S1 with `BLOCK_SIZE = 16`; the stream holds the mode bit 0
and 16 pairs of class 0 with all-zero least significant bits, and the line ends with
`noise_less_than_distance_count = 16`. -/
theorem ReadLine_zero_line_witness :
    (paramsZeroLine.lossless = true ∧ paramsZeroLine.default_pix_value = 0 ∧
      0 ≤ paramsZeroLine.max_allowed_pixel_value ∧ 1 ≤ paramsZeroLine.noise_level_distance ∧
      paramsZeroLine.noise_level_distance < 2147483648 ∧
      paramsZeroLine.max_values_count = (16 : Nat) ∧ paramsZeroLine.blocks_count = 1 ∧
      (readBlockHeader paramsZeroLine (State.init paramsZeroLine streamZeroLine)).decoding_mode
        = 0 ∧
      (∀ k, k < 16 → pairValues
        (decodeBlockUpTo paramsZeroLine k (State.init paramsZeroLine streamZeroLine)) = (0, 0))) ∧
    (ReadLine paramsZeroLine 16 2 (State.init paramsZeroLine streamZeroLine)).map
      (fun t => t.noise_less_than_distance_count) = some 16 :=
  ⟨by decide,
   (ReadLine_zero_line paramsZeroLine 16 streamZeroLine rfl rfl (by decide) (by decide)
     (by decide) rfl rfl (by decide) (by decide) 2 (by decide)).1⟩

set_option maxRecDepth 1000000 in
/-- Claim C12, counterexample: scenario S1 with `noise_level_distance = 2^31`. The
parameter is a `uint32_t` and `_collectNoiseLevelStatistics` takes it as an `int`, so the
threshold is `-2^31`: the 16 pairs decode to zero values, and no pixel is counted. -/
theorem zero_line_wide_distance_counts_nothing :
    paramsZeroLineWide.lossless = true ∧ paramsZeroLineWide.default_pix_value = 0 ∧
    0 ≤ paramsZeroLineWide.max_allowed_pixel_value ∧
    1 ≤ paramsZeroLineWide.noise_level_distance ∧
    paramsZeroLineWide.noise_level_distance < 4294967296 ∧
    paramsZeroLineWide.max_values_count = (16 : Nat) ∧ paramsZeroLineWide.blocks_count = 1 ∧
    (State.init paramsZeroLineWide streamZeroLine).current_line_index = 0 ∧
    (readBlockHeader paramsZeroLineWide
      (State.init paramsZeroLineWide streamZeroLine)).decoding_mode = 0 ∧
    (∀ k, k < 16 → pairValues (decodeBlockUpTo paramsZeroLineWide k
      (State.init paramsZeroLineWide streamZeroLine)) = (0, 0)) ∧
    (ReadLine paramsZeroLineWide 16 2 (State.init paramsZeroLineWide streamZeroLine)).map
      (fun t => t.noise_less_than_distance_count) = some 0 ∧
    (∀ i, i < 16 →
      (ReadLine paramsZeroLineWide 16 2 (State.init paramsZeroLineWide streamZeroLine)).map
        (fun t => (t.line_a.samples 0 i, t.line_bc.samples 0 i)) = some (0, 0)) := by
  decide

set_option maxRecDepth 1000000 in
/-- Claim C11, counterexample: outside `a ≤ bitdepth_real ≤ 16` a raw pixel does not do what
the claim says. With `bitdepth_real = 20` and `a = 0` the first field is `val1 = 65536`:
context A holds `val1 << a = 65536`, the `uint16_t` sample of line A holds 0. With
`bitdepth_real = 12` and the header value `a = 15` the width `bitdepth_real - a` is computed
on `uint32_t`: the pixel consumes two fields of `2^32 - 3` bits each. -/
theorem rawPixel_outside_bounds :
    ((stateRaw20.decoding_mode = RAW_MODE ∧ stateRaw20.parameters_raw_mode.a = 0 ∧
        paramsRaw20.bitdepth_real = 20) ∧
      rawField1 paramsRaw20 stateRaw20 = 65536 ∧
      (rawPixel paramsRaw20 false 0 stateRaw20).context_a.last_new_read_values.v0 = 65536 ∧
      (rawPixel paramsRaw20 false 0 stateRaw20).line_a.samples stateRaw20.current_block_index 0
        = 0 ∧
      (rawPixel paramsRaw20 false 0 stateRaw20).line_a.samples stateRaw20.current_block_index 0
        ≠ rawField1 paramsRaw20 stateRaw20 <<< stateRaw20.parameters_raw_mode.a) ∧
    ((stateRaw12Wide.decoding_mode = RAW_MODE ∧ stateRaw12Wide.parameters_raw_mode.a = 15 ∧
        paramsRaw12.bitdepth_real = 12) ∧
      (rawPixel paramsRaw12 false 0 stateRaw12Wide).reader.pos =
        stateRaw12Wide.reader.pos + 2 * 4294967293 ∧
      (rawPixel paramsRaw12 false 0 stateRaw12Wide).reader.pos ≠
        stateRaw12Wide.reader.pos + 2 * rawFieldWidth paramsRaw12 stateRaw12Wide) := by
  decide

end ZRaw
